import Mathlib

/-!
Verification of the softrender-engine sprite rasterizer.

The definitions below are a shallow embedding of the C++ sources:
`IntRectangle.hpp` (integer rectangles), `SpriteRenderer.hpp` (the
scanline renderer; the later variant of the file, whose activation step
is the sort-plus-merge `insertAllActivatedSprites`), and the
`rgbToARGB8888` pixel packer from `main.cpp`.  Machine `int32_t`
coordinates are modelled as unbounded `Int` and the unsigned
`width`/`height` as `Nat`; none of the verified properties exercises
wrap-around behaviour.  All definitions are executable so that concrete
scenarios evaluate by `decide`/`rfl`.
-/

/-- Integer rectangle, after `IntRectangle.hpp`: signed origin `x`,`y`
and unsigned extents `width`,`height`. -/
structure IntRect where
  x : Int
  y : Int
  width : Nat
  height : Nat
deriving DecidableEq, Repr

/-- Source `IntRectangle::isEmpty`: true when the rectangle contains no
pixels, i.e. either extent is zero. -/
def IntRect.isEmpty (r : IntRect) : Bool :=
  r.width == 0 || r.height == 0

/-- Source `IntRectangle::getLastX`: the largest X coordinate contained
in the rectangle (`x + width - 1`). -/
def IntRect.getLastX (r : IntRect) : Int :=
  r.x + (r.width : Int) - 1

/-- Source `IntRectangle::getLastY`: the largest Y coordinate contained
in the rectangle (`y + height - 1`). -/
def IntRect.getLastY (r : IntRect) : Int :=
  r.y + (r.height : Int) - 1

/-- Source `IntRectangle::intersects`, with the same early-out chain. -/
def IntRect.intersects (r other : IntRect) : Bool :=
  if r.isEmpty || other.isEmpty then false
  else if other.x > r.getLastX then false
  else if r.x > other.getLastX then false
  else if other.y > r.getLastY then false
  else if r.y > other.getLastY then false
  else true

/-- Source `IntRectangle::getIntersection`: the default-constructed
rectangle when the operands do not overlap, otherwise the max of the
origins and the min of the last coordinates converted back to extents. -/
def IntRect.getIntersection (r other : IntRect) : IntRect :=
  if !(r.intersects other) then ⟨0, 0, 0, 0⟩
  else
    let rx := max r.x other.x
    let ry := max r.y other.y
    let lastX := min r.getLastX other.getLastX
    let lastY := min r.getLastY other.getLastY
    ⟨rx, ry, (lastX - rx + 1).toNat, (lastY - ry + 1).toNat⟩

/-- Pixel membership: the point `(px, py)` is one of the pixels of `r`.
This is the specification-side notion of "the pixels of a rectangle". -/
def IntRect.contains (r : IntRect) (px py : Int) : Prop :=
  r.x ≤ px ∧ px ≤ r.getLastX ∧ r.y ≤ py ∧ py ≤ r.getLastY

instance (r : IntRect) (px py : Int) : Decidable (r.contains px py) := by
  unfold IntRect.contains
  exact inferInstance

theorem IntRect.isEmpty_iff (r : IntRect) :
    r.isEmpty = true ↔ r.width = 0 ∨ r.height = 0 := by
  simp [IntRect.isEmpty]

theorem IntRect.isEmpty_false_iff (r : IntRect) :
    r.isEmpty = false ↔ 0 < r.width ∧ 0 < r.height := by
  rw [← Bool.not_eq_true, IntRect.isEmpty_iff]
  omega

theorem IntRect.intersects_iff (a b : IntRect) :
    a.intersects b = true ↔
      0 < a.width ∧ 0 < a.height ∧ 0 < b.width ∧ 0 < b.height ∧
      b.x ≤ a.getLastX ∧ a.x ≤ b.getLastX ∧ b.y ≤ a.getLastY ∧ a.y ≤ b.getLastY := by
  unfold IntRect.intersects
  split_ifs with h1 h2 h3 h4 h5
  · simp only [Bool.false_eq_true, false_iff]
    rcases Bool.or_eq_true _ _ |>.mp h1 with h | h <;>
      rw [IntRect.isEmpty_iff] at h <;> omega
  · simp only [Bool.false_eq_true, false_iff]
    omega
  · simp only [Bool.false_eq_true, false_iff]
    omega
  · simp only [Bool.false_eq_true, false_iff]
    omega
  · simp only [Bool.false_eq_true, false_iff]
    omega
  · simp only [true_iff]
    simp only [Bool.or_eq_true, not_or, Bool.not_eq_true] at h1
    rw [IntRect.isEmpty_false_iff] at h1
    rw [IntRect.isEmpty_false_iff] at h1
    omega

theorem IntRect.intersects_of_contains {a b : IntRect} {p q : Int}
    (ha : a.contains p q) (hb : b.contains p q) : a.intersects b = true := by
  rw [IntRect.intersects_iff]
  unfold IntRect.contains IntRect.getLastX IntRect.getLastY at *
  omega

theorem IntRect.contains_of_intersects {a b : IntRect}
    (h : a.intersects b = true) :
    a.contains (max a.x b.x) (max a.y b.y) ∧ b.contains (max a.x b.x) (max a.y b.y) := by
  rw [IntRect.intersects_iff] at h
  unfold IntRect.contains
  rcases le_total a.x b.x with hx | hx <;>
    rcases le_total a.y b.y with hy | hy <;>
      simp [max_eq_left, max_eq_right, hx, hy] <;>
        unfold IntRect.getLastX IntRect.getLastY at * <;> omega

theorem IntRect.getIntersection_of_not_intersects {a b : IntRect}
    (h : a.intersects b = false) : a.getIntersection b = ⟨0, 0, 0, 0⟩ := by
  unfold IntRect.getIntersection
  rw [h]
  rfl

theorem IntRect.getIntersection_of_intersects {a b : IntRect}
    (h : a.intersects b = true) :
    a.getIntersection b =
      ⟨max a.x b.x, max a.y b.y,
       (min a.getLastX b.getLastX - max a.x b.x + 1).toNat,
       (min a.getLastY b.getLastY - max a.y b.y + 1).toNat⟩ := by
  unfold IntRect.getIntersection
  rw [h]
  rfl

theorem IntRect.max_le_min_of_intersects {a b : IntRect}
    (h : a.intersects b = true) :
    max a.x b.x ≤ min a.getLastX b.getLastX ∧
    max a.y b.y ≤ min a.getLastY b.getLastY := by
  rw [IntRect.intersects_iff] at h
  unfold IntRect.getLastX IntRect.getLastY at *
  constructor
  · rcases le_total a.x b.x with hx | hx <;>
      rcases le_total (a.x + (a.width : Int) - 1) (b.x + (b.width : Int) - 1) with hl | hl <;>
        simp [max_eq_left, max_eq_right, min_eq_left, min_eq_right, hx, hl] <;> omega
  · rcases le_total a.y b.y with hy | hy <;>
      rcases le_total (a.y + (a.height : Int) - 1) (b.y + (b.height : Int) - 1) with hl | hl <;>
        simp [max_eq_left, max_eq_right, min_eq_left, min_eq_right, hy, hl] <;> omega

theorem IntRect.getIntersection_lastX {a b : IntRect}
    (h : a.intersects b = true) :
    (a.getIntersection b).getLastX = min a.getLastX b.getLastX ∧
    (a.getIntersection b).getLastY = min a.getLastY b.getLastY ∧
    (a.getIntersection b).x = max a.x b.x ∧
    (a.getIntersection b).y = max a.y b.y ∧
    (a.getIntersection b).isEmpty = false := by
  have hmm := IntRect.max_le_min_of_intersects h
  rw [IntRect.getIntersection_of_intersects h]
  unfold IntRect.getLastX IntRect.getLastY at *
  dsimp only
  refine ⟨by omega, by omega, rfl, rfl, ?_⟩
  rw [IntRect.isEmpty_false_iff]
  dsimp only
  omega

theorem IntRect.contains_getIntersection (a b : IntRect) (p q : Int) :
    (a.getIntersection b).contains p q ↔ a.contains p q ∧ b.contains p q := by
  by_cases h : a.intersects b = true
  · have hf := IntRect.getIntersection_lastX h
    unfold IntRect.contains
    rw [hf.1, hf.2.1, hf.2.2.1, hf.2.2.2.1]
    constructor
    · intro hc
      unfold IntRect.getLastX IntRect.getLastY at *
      rcases le_total a.x b.x with hx | hx <;>
        rcases le_total a.y b.y with hy | hy <;>
          rcases le_total (a.x + (a.width : Int) - 1) (b.x + (b.width : Int) - 1) with h1 | h1 <;>
            rcases le_total (a.y + (a.height : Int) - 1) (b.y + (b.height : Int) - 1) with h2 | h2 <;>
              simp_all [max_eq_left, max_eq_right, min_eq_left, min_eq_right] <;> omega
    · intro hc
      simp only [max_le_iff, le_min_iff]
      exact ⟨⟨hc.1.1, hc.2.1⟩, ⟨hc.1.2.1, hc.2.2.1⟩, ⟨hc.1.2.2.1, hc.2.2.2.1⟩,
        ⟨hc.1.2.2.2, hc.2.2.2.2⟩⟩
  · rw [IntRect.getIntersection_of_not_intersects (by simpa using h)]
    constructor
    · intro hc
      exfalso
      unfold IntRect.contains IntRect.getLastX at hc
      simp only at hc
      omega
    · intro hc
      exact absurd (IntRect.intersects_of_contains hc.1 hc.2) h

theorem IntRect.intersects_comm (a b : IntRect) :
    a.intersects b = b.intersects a := by
  rw [Bool.eq_iff_iff, IntRect.intersects_iff, IntRect.intersects_iff]
  tauto

theorem IntRect.getIntersection_comm (a b : IntRect) :
    a.getIntersection b = b.getIntersection a := by
  by_cases h : a.intersects b = true
  · have h' : b.intersects a = true := by rw [← IntRect.intersects_comm]; exact h
    rw [IntRect.getIntersection_of_intersects h, IntRect.getIntersection_of_intersects h']
    simp [max_comm, min_comm]
  · have hf : a.intersects b = false := by simpa using h
    have hf' : b.intersects a = false := by rw [← IntRect.intersects_comm]; exact hf
    rw [IntRect.getIntersection_of_not_intersects hf,
      IntRect.getIntersection_of_not_intersects hf']

theorem IntRect.isEmpty_getIntersection_of_empty {a e : IntRect}
    (he : e.isEmpty = true) : (a.getIntersection e).isEmpty = true := by
  have hf : a.intersects e = false := by
    rw [← Bool.not_eq_true, IntRect.intersects_iff]
    rw [IntRect.isEmpty_iff] at he
    omega
  rw [IntRect.getIntersection_of_not_intersects hf]
  rfl

theorem IntRect.getIntersection_self {a : IntRect} (ha : a.isEmpty = false) :
    a.getIntersection a = a := by
  rw [IntRect.isEmpty_false_iff] at ha
  have h : a.intersects a = true := by
    rw [IntRect.intersects_iff]
    unfold IntRect.getLastX IntRect.getLastY
    omega
  rw [IntRect.getIntersection_of_intersects h]
  unfold IntRect.getLastX IntRect.getLastY
  cases a with
  | mk x y w hgt =>
    simp only [max_self, min_self, IntRect.mk.injEq, true_and]
    constructor <;> omega

theorem IntRect.intersects_iff_exists (a b : IntRect) :
    a.intersects b = true ↔ ∃ p q, a.contains p q ∧ b.contains p q := by
  constructor
  · intro h
    exact ⟨max a.x b.x, max a.y b.y, IntRect.contains_of_intersects h⟩
  · rintro ⟨p, q, hp, hq⟩
    exact IntRect.intersects_of_contains hp hq

theorem IntRect.not_intersects_of_empty_left {r : IntRect} (h : r.isEmpty = true)
    (b : IntRect) : r.intersects b = false := by
  unfold IntRect.intersects
  rw [h]
  rfl

theorem IntRect.getIntersection_assoc (a b c : IntRect) :
    (a.getIntersection b).getIntersection c = a.getIntersection (b.getIntersection c) := by
  by_cases htriple : ∃ p q, a.contains p q ∧ b.contains p q ∧ c.contains p q
  · obtain ⟨p, q, hpa, hpb, hpc⟩ := htriple
    have hab : a.intersects b = true := IntRect.intersects_of_contains hpa hpb
    have hbc : b.intersects c = true := IntRect.intersects_of_contains hpb hpc
    have habc : (a.getIntersection b).intersects c = true := by
      apply IntRect.intersects_of_contains _ hpc
      rw [IntRect.contains_getIntersection]
      exact ⟨hpa, hpb⟩
    have habc' : a.intersects (b.getIntersection c) = true := by
      apply IntRect.intersects_of_contains hpa
      rw [IntRect.contains_getIntersection]
      exact ⟨hpb, hpc⟩
    have f1 := IntRect.getIntersection_lastX hab
    have f2 := IntRect.getIntersection_lastX hbc
    rw [IntRect.getIntersection_of_intersects habc,
      IntRect.getIntersection_of_intersects habc']
    rw [f1.1, f1.2.1, f1.2.2.1, f1.2.2.2.1, f2.1, f2.2.1, f2.2.2.1, f2.2.2.2.1]
    simp [max_assoc, min_assoc]
  · have hL : (a.getIntersection b).getIntersection c = ⟨0, 0, 0, 0⟩ := by
      by_cases hab : a.intersects b = true
      · apply IntRect.getIntersection_of_not_intersects
        rw [← Bool.not_eq_true, IntRect.intersects_iff_exists]
        rintro ⟨p, q, hpab, hpc⟩
        rw [IntRect.contains_getIntersection] at hpab
        exact htriple ⟨p, q, hpab.1, hpab.2, hpc⟩
      · have hab' : a.intersects b = false := by simpa using hab
        rw [IntRect.getIntersection_of_not_intersects hab']
        exact IntRect.getIntersection_of_not_intersects
          (IntRect.not_intersects_of_empty_left (show (⟨0, 0, 0, 0⟩ : IntRect).isEmpty = true from rfl) c)
    have hR : a.getIntersection (b.getIntersection c) = ⟨0, 0, 0, 0⟩ := by
      by_cases hbc : b.intersects c = true
      · apply IntRect.getIntersection_of_not_intersects
        rw [← Bool.not_eq_true, IntRect.intersects_iff_exists]
        rintro ⟨p, q, hpa, hpbc⟩
        rw [IntRect.contains_getIntersection] at hpbc
        exact htriple ⟨p, q, hpa, hpbc.1, hpbc.2⟩
      · have hbc' : b.intersects c = false := by simpa using hbc
        rw [IntRect.getIntersection_of_not_intersects hbc']
        apply IntRect.getIntersection_of_not_intersects
        rw [IntRect.intersects_comm]
        exact IntRect.not_intersects_of_empty_left (show (⟨0, 0, 0, 0⟩ : IntRect).isEmpty = true from rfl) a
    rw [hL, hR]

/-- One pixel of a sprite (source struct `SpritePixel`): an RGB triple
plus a transparency flag.  The `uint8_t` channels are modelled as `Nat`. -/
structure SpritePixel where
  r : Nat
  g : Nat
  b : Nat
  isTransparent : Bool
deriving DecidableEq, Repr

/-- The non-transparent `SpritePixel(r, g, b)` constructor. -/
def SpritePixel.solid (r g b : Nat) : SpritePixel := ⟨r, g, b, false⟩

/-- The default `SpritePixel()` constructor: transparent, channels zero. -/
def SpritePixel.transparent : SpritePixel := ⟨0, 0, 0, true⟩

/-- Source struct `Sprite`: position rectangle, per-pixel getter closure
and z-layer (`uint32_t`, modelled as `Nat`; only compared). -/
structure Sprite where
  position : IntRect
  pixelGetter : Int → Int → SpritePixel
  layer : Nat

/-- The local-coordinate lookup `spr->pixelGetter(x - pos.x, y - pos.y)`
performed by `renderPixel`. -/
def spritePixelAt (s : Sprite) (x y : Int) : SpritePixel :=
  s.pixelGetter (x - s.position.x) (y - s.position.y)

/-- The viewport `IntRectangle<int32_t>(0, 0, width, height)` computed in
`distributeSpritesToRasterLines`. -/
def viewport (w h : Nat) : IntRect := ⟨0, 0, w, h⟩

/-- A sprite's `visibleRect = viewport.getIntersection(sprite.position)`. -/
def visibleRect (w h : Nat) (s : Sprite) : IntRect :=
  (viewport w h).getIntersection s.position

/-- The clipped `blockViewport` of block `i` in
`distributeSpritesToRasterLines`:
`IntRectangle(0, i * blockSize, width, blockSize).getIntersection(viewport)`
with `blockSize = 8`. -/
def blockViewport (w h i : Nat) : IntRect :=
  (IntRect.mk 0 ((i : Int) * 8) w 8).getIntersection (viewport w h)

/-- Membership of a sprite in `blocks[i].sprites` after the first loop of
`distributeSpritesToRasterLines`: its viewport intersection is non-empty
and `firstBlock = visibleRect.y / 8 ≤ i ≤ visibleRect.getLastY() / 8 =
lastBlock`.  The loop pushes sprites in input order, so the block's list
is exactly this filter of the input sequence. -/
def spriteInBlock (w h i : Nat) (s : Sprite) : Bool :=
  let vr := visibleRect w h s
  !vr.isEmpty && decide (vr.y / 8 ≤ (i : Int)) && decide ((i : Int) ≤ vr.getLastY / 8)

/-- The begin-list `pixels[x].beginningSprites` of raster line `y` after
pass A of `distributeSpritesToRasterLines`.  Row `y` is written by
exactly one block, `i = y / 8` (a block-level `visibleRect` lies inside
the block's rows), that block iterates its sprites in input order, and
`addSprite`/`put` appends; hence the cell content is this filter.  The
recorded start column is the block-level `visibleRect.x`.
`beginCellCond` is the per-cell test of the inner loop: the block-level
intersection is non-empty, spans row `y`, and starts at column `x`. -/
def beginCellCond (w h y x : Nat) (s : Sprite) : Bool :=
  let bvr := (blockViewport w h (y / 8)).getIntersection s.position
  !bvr.isEmpty && decide (bvr.y ≤ (y : Int)) && decide ((y : Int) ≤ bvr.getLastY)
    && decide (bvr.x = (x : Int))

def lineBeginList (w h : Nat) (sprites : List Sprite) (y x : Nat) : List Sprite :=
  (sprites.filter (spriteInBlock w h (y / 8))).filter (beginCellCond w h y x)

/-- Stable insertion into a layer-ascending list; with `sortByLayer` this
models the `sort(begin, end, a->layer < b->layer)` call of
`insertAllActivatedSprites`.  `std::sort` leaves the order of equal-layer
elements unspecified; libstdc++ insertion-sorts these short begin-lists,
which preserves input order, and the model fixes that stable behaviour. -/
def insertSorted (s : Sprite) : List Sprite → List Sprite
  | [] => [s]
  | t :: ts => if s.layer ≤ t.layer then s :: t :: ts else t :: insertSorted s ts

/-- Sorting of a begin-list ascending by layer (see `insertSorted`). -/
def sortByLayer : List Sprite → List Sprite
  | [] => []
  | s :: ss => insertSorted s (sortByLayer ss)

/-- One step of the backwards merge loop of `insertAllActivatedSprites`:
`a` is the largest remaining element of the previous stack content and
`rest` continues the merge with the remaining previous content.  Written
with a continuation so that the recursion is structural. -/
def mergeRevAux (a : Sprite) (rest : List Sprite → List Sprite) :
    List Sprite → List Sprite
  | [] => a :: rest []
  | b :: bs => if b.layer > a.layer then b :: mergeRevAux a rest bs else a :: rest (b :: bs)

/-- The backwards merge loop of `insertAllActivatedSprites`, acting on the
reversed (descending) previous stack content and reversed sorted batch.
On equal layers the old element lands on top: the loop's
`spriteToInsert->layer > (*previousContentIter)->layer` test is strict. -/
def mergeStacksRev : List Sprite → List Sprite → List Sprite
  | [], bs => bs
  | a :: as, bs => mergeRevAux a (mergeStacksRev as) bs

/-- `insertAllActivatedSprites`: sort the begin-list ascending by layer,
then merge it into the layer-ascending active stack from the back.  The
source's early outs (`nSpritesToInsert == 0`, `previousSize == 0`)
coincide with the merge on an empty operand. -/
def insertAllActivated (stack newSprites : List Sprite) : List Sprite :=
  (mergeStacksRev stack.reverse (sortByLayer newSprites).reverse).reverse

/-- Result of one top-down scan of the active stack in `renderPixel`. -/
inductive ScanResult where
  | found (p : SpritePixel)
  | noPixel
  | staleTop
  | staleMid
deriving DecidableEq, Repr

/-- The staleness test `spr->position.getLastX() < x` of `renderPixel`. -/
def staleAt (x : Int) (s : Sprite) : Bool := decide (s.position.getLastX < x)

/-- The scan loop of `renderPixel` over the reversed stack (topmost
first).  `isTop` records whether the iterator still equals `rbegin`,
which selects between the pop-one and compact-all removal paths. -/
def scanStack (x y : Int) : List Sprite → Bool → ScanResult
  | [], _ => .noPixel
  | s :: rest, isTop =>
      if staleAt x s then (if isTop then .staleTop else .staleMid)
      else
        if (spritePixelAt s x y).isTransparent then scanStack x y rest false
        else .found (spritePixelAt s x y)

/-- `removeInactiveSpritesFromSpriteStack`: erase-remove of every sprite
that column `x` is already past. -/
def removeInactive (x : Int) (stack : List Sprite) : List Sprite :=
  stack.filter (fun s => !staleAt x s)

/-- The `renderPixel` retry loop (the `goto renderPixelRetry` path) with
explicit fuel; every retry strictly shrinks the stack, so
`stack.length + 1` rounds always suffice (`renderPixelGo_isSome`).
`none` marks fuel exhaustion and is never reached from `renderPixel`. -/
def renderPixelGo (x y : Int) : Nat → List Sprite → Option (SpritePixel × List Sprite)
  | 0, _ => none
  | fuel + 1, stack =>
      match scanStack x y stack.reverse true with
      | .found p => some (p, stack)
      | .noPixel => some (SpritePixel.transparent, stack)
      | .staleTop => renderPixelGo x y fuel stack.dropLast
      | .staleMid => renderPixelGo x y fuel (removeInactive x stack)

/-- `RasterLine::renderPixel`: resolved pixel plus the possibly compacted
sprite stack.  The default of `getD` is never used. -/
def renderPixel (stack : List Sprite) (x y : Int) : SpritePixel × List Sprite :=
  (renderPixelGo x y (stack.length + 1) stack).getD (SpritePixel.transparent, stack)

/-- The active sprite stack of `RasterLine::render` at the start of
column-loop iteration `x` (before that column's activation), for an
arbitrary assignment `bl` of begin-lists to columns. -/
def lineStackBL (bl : Nat → List Sprite) (y : Int) : Nat → List Sprite
  | 0 => []
  | x + 1 => (renderPixel (insertAllActivated (lineStackBL bl y x) (bl x)) (x : Int) y).2

/-- The stack at column `x` right after `insertAllActivatedSprites`,
i.e. the stack handed to `renderPixel`. -/
def stackResolvedBL (bl : Nat → List Sprite) (y : Int) (x : Nat) : List Sprite :=
  insertAllActivated (lineStackBL bl y x) (bl x)

/-- The packed value stored at column `x` of a row: `renderPixel`, the
transparent-to-black substitution, then the pixel packer. -/
def linePixelBL (bl : Nat → List Sprite) (packer : Nat → Nat → Nat → Nat)
    (y : Int) (x : Nat) : Nat :=
  let pix0 := (renderPixel (stackResolvedBL bl y x) (x : Int) y).1
  let pix := if pix0.isTransparent then SpritePixel.solid 0 0 0 else pix0
  packer pix.r pix.g pix.b

/-- `RasterLine::render`: the packed pixels of one row. -/
def renderLineBL (w : Nat) (bl : Nat → List Sprite) (packer : Nat → Nat → Nat → Nat)
    (y : Int) : List Nat :=
  (List.range w).map (linePixelBL bl packer y)

/-- Row `y` of a full `render(sprites, framebuffer, pitch)` call entered
with the per-frame reset invariant (all begin-lists empty). -/
def renderLine (w h : Nat) (sprites : List Sprite) (packer : Nat → Nat → Nat → Nat)
    (y : Nat) : List Nat :=
  renderLineBL w (lineBeginList w h sprites y) packer (y : Int)

/-- The stack handed to `renderPixel` at `(x, y)` of a full render. -/
def stackResolved (w h : Nat) (sprites : List Sprite) (y x : Nat) : List Sprite :=
  stackResolvedBL (lineBeginList w h sprites y) (y : Int) x

/-- The packed 32-bit value the renderer stores at framebuffer position
`(x, y)`. -/
def renderedAt (w h : Nat) (sprites : List Sprite) (packer : Nat → Nat → Nat → Nat)
    (x y : Nat) : Nat :=
  linePixelBL (lineBeginList w h sprites y) packer (y : Int) x

/-- All rows of one rendered frame. -/
def renderFrame (w h : Nat) (sprites : List Sprite)
    (packer : Nat → Nat → Nat → Nat) : List (List Nat) :=
  (List.range h).map (renderLine w h sprites packer)

/-- Little-endian byte view of the 32-bit store
`targetPixels[x] = pixelPacker(...)` at byte address `addr`. -/
def storeWord (fb : Nat → Nat) (addr v : Nat) : Nat → Nat :=
  fun i => if addr ≤ i ∧ i < addr + 4 then v / 256 ^ (i - addr) % 256 else fb i

/-- The stores of one row of 32-bit words, first word at byte `base`. -/
def storeRow (fb : Nat → Nat) (base : Nat) : List Nat → Nat → Nat
  | [] => fb
  | v :: vs => storeRow (storeWord fb base v) (base + 4) vs

/-- `SpriteRenderer::render` observed at byte granularity: every raster
line is rendered to byte offset `y * pitch` of the framebuffer. -/
def renderIntoFB (w h : Nat) (sprites : List Sprite)
    (packer : Nat → Nat → Nat → Nat) (pitch : Nat) (fb : Nat → Nat) : Nat → Nat :=
  (List.range h).foldl
    (fun acc y => storeRow acc (y * pitch) (renderLine w h sprites packer y)) fb

/-- Pass A acting on the renderer's per-frame state (cell `(y, x)` is the
`beginningSprites` list of `rasterLines[y].pixels[x]`): `put` appends the
new sprites behind whatever the cell already holds. -/
def distributeToState (w h : Nat) (sprites : List Sprite)
    (st : List (List (List Sprite))) : List (List (List Sprite)) :=
  st.mapIdx (fun y line => line.mapIdx (fun x cell => cell ++ lineBeginList w h sprites y x))

/-- `RasterLine::clear`: empty every cell's begin-list. -/
def clearLine (line : List (List Sprite)) : List (List Sprite) :=
  line.map (fun _ => [])

/-- Stateful `render`: pass A appends into the existing begin-lists, pass
B renders every row from its lists and then clears the row.  First
component: the rendered frame; second: the post-call state. -/
def renderState (w h : Nat) (sprites : List Sprite)
    (packer : Nat → Nat → Nat → Nat) (st : List (List (List Sprite))) :
    List (List Nat) × List (List (List Sprite)) :=
  let st1 := distributeToState w h sprites st
  (st1.mapIdx (fun y line => renderLineBL w (fun x => line.getD x []) packer (y : Int)),
   st1.map clearLine)

/-- The reference packer `rgbToARGB8888` of `main.cpp`:
`(0xFF << 24) | (r << 16) | (g << 8) | b`, on `Nat`. -/
def rgbToARGB8888 (r g b : Nat) : Nat :=
  0xFF000000 ||| (r <<< 16) ||| (g <<< 8) ||| b

/-- Claim C5 as stated is refuted by idempotency on an empty rectangle
with non-zero origin: `getIntersection` returns the default-constructed
rectangle whenever `intersects` is false, and an empty rectangle never
intersects anything, itself included. -/
theorem c5_counterexample :
    ¬ ((⟨5, 7, 0, 3⟩ : IntRect).getIntersection ⟨5, 7, 0, 3⟩ = ⟨5, 7, 0, 3⟩) := by
  decide

/-- Claim C5, amended: `getIntersection` is commutative and associative,
idempotent on every non-empty rectangle (for an empty `a`,
`a.getIntersection a` is the empty default rectangle instead of `a`
itself), the result is contained in both operands, and intersecting with
an empty rectangle yields an empty rectangle. -/
theorem c5_intersection_algebra :
    (∀ a b : IntRect, a.getIntersection b = b.getIntersection a) ∧
    (∀ a b c : IntRect,
      (a.getIntersection b).getIntersection c = a.getIntersection (b.getIntersection c)) ∧
    (∀ a : IntRect, a.isEmpty = false → a.getIntersection a = a) ∧
    (∀ (a b : IntRect) (p q : Int), (a.getIntersection b).contains p q →
      a.contains p q ∧ b.contains p q) ∧
    (∀ a e : IntRect, e.isEmpty = true → (a.getIntersection e).isEmpty = true) :=
  ⟨IntRect.getIntersection_comm, IntRect.getIntersection_assoc,
   fun _ ha => IntRect.getIntersection_self ha,
   fun a b p q hp => (IntRect.contains_getIntersection a b p q).mp hp,
   fun _ _ he => IntRect.isEmpty_getIntersection_of_empty he⟩

/-- Witness for the amended C5 at concrete rectangles. -/
theorem c5_witness :
    (⟨1, 2, 3, 4⟩ : IntRect).getIntersection ⟨1, 2, 3, 4⟩ = ⟨1, 2, 3, 4⟩ ∧
    ((⟨0, 0, 2, 2⟩ : IntRect).getIntersection ⟨9, 9, 0, 5⟩).isEmpty = true :=
  ⟨c5_intersection_algebra.2.2.1 ⟨1, 2, 3, 4⟩ (by decide),
   c5_intersection_algebra.2.2.2.2 ⟨0, 0, 2, 2⟩ ⟨9, 9, 0, 5⟩ (by decide)⟩

theorem insertSorted_perm (s : Sprite) (l : List Sprite) :
    List.Perm (insertSorted s l) (s :: l) := by
  induction l with
  | nil => exact List.Perm.refl _
  | cons t ts ih =>
    unfold insertSorted
    by_cases h : s.layer ≤ t.layer
    · rw [if_pos h]
    · rw [if_neg h]
      exact (ih.cons t).trans (List.Perm.swap s t ts)

theorem insertSorted_sorted {l : List Sprite} (s : Sprite)
    (hl : l.Pairwise (fun a b => a.layer ≤ b.layer)) :
    (insertSorted s l).Pairwise (fun a b => a.layer ≤ b.layer) := by
  induction l with
  | nil => simp [insertSorted]
  | cons t ts ih =>
    have hl1 := List.pairwise_cons.mp hl
    unfold insertSorted
    by_cases h : s.layer ≤ t.layer
    · rw [if_pos h]
      rw [List.pairwise_cons]
      refine ⟨?_, hl⟩
      intro u hu
      rcases List.mem_cons.mp hu with rfl | hu'
      · exact h
      · exact le_trans h (hl1.1 u hu')
    · rw [if_neg h]
      rw [List.pairwise_cons]
      constructor
      · intro u hu
        rcases List.mem_cons.mp ((insertSorted_perm s ts).mem_iff.mp hu) with rfl | hu'
        · omega
        · exact hl1.1 u hu'
      · exact ih hl1.2

theorem sortByLayer_perm (l : List Sprite) : List.Perm (sortByLayer l) l := by
  induction l with
  | nil => exact List.Perm.refl _
  | cons s ss ih => exact (insertSorted_perm s (sortByLayer ss)).trans (ih.cons s)

theorem sortByLayer_sorted (l : List Sprite) :
    (sortByLayer l).Pairwise (fun a b => a.layer ≤ b.layer) := by
  induction l with
  | nil => simp [sortByLayer]
  | cons s ss ih => exact insertSorted_sorted s ih

theorem mergeStacksRev_nil_right (as : List Sprite) : mergeStacksRev as [] = as := by
  induction as with
  | nil => rfl
  | cons a as ih =>
    show mergeRevAux a (mergeStacksRev as) [] = a :: as
    unfold mergeRevAux
    rw [ih]

theorem mergeStacksRev_cons_cons (a b : Sprite) (as bs : List Sprite) :
    mergeStacksRev (a :: as) (b :: bs) =
      if b.layer > a.layer then b :: mergeStacksRev (a :: as) bs
      else a :: mergeStacksRev as (b :: bs) := by
  rfl

theorem mergeStacksRev_perm (as : List Sprite) :
    ∀ bs, List.Perm (mergeStacksRev as bs) (as ++ bs) := by
  induction as with
  | nil => intro bs; exact List.Perm.refl _
  | cons a as iha =>
    intro bs
    induction bs with
    | nil => rw [mergeStacksRev_nil_right, List.append_nil]
    | cons b bs ihb =>
      rw [mergeStacksRev_cons_cons]
      by_cases h : b.layer > a.layer
      · rw [if_pos h]
        exact (ihb.cons b).trans List.perm_middle.symm
      · rw [if_neg h]
        exact (iha (b :: bs)).cons a

theorem mergeStacksRev_sorted (as : List Sprite) :
    ∀ bs, as.Pairwise (fun a b => b.layer ≤ a.layer) →
      bs.Pairwise (fun a b => b.layer ≤ a.layer) →
      (mergeStacksRev as bs).Pairwise (fun a b => b.layer ≤ a.layer) := by
  induction as with
  | nil => intro bs _ hbs; exact hbs
  | cons a as iha =>
    intro bs has
    induction bs with
    | nil => intro _; rw [mergeStacksRev_nil_right]; exact has
    | cons b bs ihb =>
      intro hbs
      have has1 := List.pairwise_cons.mp has
      have hbs1 := List.pairwise_cons.mp hbs
      rw [mergeStacksRev_cons_cons]
      by_cases h : b.layer > a.layer
      · rw [if_pos h]
        rw [List.pairwise_cons]
        constructor
        · intro u hu
          rcases List.mem_append.mp ((mergeStacksRev_perm (a :: as) bs).mem_iff.mp hu)
            with hu' | hu'
          · rcases List.mem_cons.mp hu' with rfl | hu''
            · omega
            · exact le_trans (has1.1 u hu'') (le_of_lt h)
          · exact hbs1.1 u hu'
        · exact ihb hbs1.2
      · rw [if_neg h]
        rw [List.pairwise_cons]
        constructor
        · intro u hu
          rcases List.mem_append.mp ((mergeStacksRev_perm as (b :: bs)).mem_iff.mp hu)
            with hu' | hu'
          · exact has1.1 u hu'
          · rcases List.mem_cons.mp hu' with rfl | hu''
            · omega
            · exact le_trans (hbs1.1 u hu'') (by omega)
        · exact iha (b :: bs) has1.2 hbs

theorem insertAllActivated_perm (stack l : List Sprite) :
    List.Perm (insertAllActivated stack l) (stack ++ l) := by
  unfold insertAllActivated
  refine (List.reverse_perm _).trans ((mergeStacksRev_perm _ _).trans ?_)
  exact List.Perm.append (List.reverse_perm _)
    ((List.reverse_perm _).trans (sortByLayer_perm l))

theorem mem_insertAllActivated {stack l : List Sprite} {s : Sprite} :
    s ∈ insertAllActivated stack l ↔ s ∈ stack ∨ s ∈ l := by
  rw [(insertAllActivated_perm stack l).mem_iff, List.mem_append]

theorem insertAllActivated_sorted {stack : List Sprite} (l : List Sprite)
    (hstack : stack.Pairwise (fun a b => a.layer ≤ b.layer)) :
    (insertAllActivated stack l).Pairwise (fun a b => a.layer ≤ b.layer) := by
  unfold insertAllActivated
  rw [List.pairwise_reverse]
  apply mergeStacksRev_sorted
  · rw [List.pairwise_reverse]
    exact hstack
  · rw [List.pairwise_reverse]
    exact sortByLayer_sorted l

/-- Derived description of the pixel `renderPixel` resolves on a stack:
the topmost non-stale sprite (scanning the reversed stack front to back)
whose pixel at `(x, y)` is not transparent, or the transparent pixel. -/
def pixResolve (stack : List Sprite) (x y : Int) : SpritePixel :=
  match (stack.reverse.filter (fun s => !staleAt x s)).find?
      (fun s => !(spritePixelAt s x y).isTransparent) with
  | some s => spritePixelAt s x y
  | none => SpritePixel.transparent

theorem scanStack_false_ne_staleTop (x y : Int) :
    ∀ l : List Sprite, scanStack x y l false ≠ ScanResult.staleTop := by
  intro l
  induction l with
  | nil => simp [scanStack]
  | cons s rest ih =>
    unfold scanStack
    by_cases hst : staleAt x s
    · simp [hst]
    · simp only [hst, Bool.false_eq_true, if_false]
      by_cases htr : (spritePixelAt s x y).isTransparent
      · simpa [htr] using ih
      · simp [htr]

theorem scanStack_staleTop {x y : Int} {l : List Sprite}
    (h : scanStack x y l true = ScanResult.staleTop) :
    ∃ t rest, l = t :: rest ∧ staleAt x t = true := by
  cases l with
  | nil => simp [scanStack] at h
  | cons s rest =>
    unfold scanStack at h
    by_cases hst : staleAt x s
    · exact ⟨s, rest, rfl, hst⟩
    · simp only [hst, Bool.false_eq_true, if_false] at h
      by_cases htr : (spritePixelAt s x y).isTransparent
      · rw [if_pos htr] at h
        exact absurd h (scanStack_false_ne_staleTop x y rest)
      · rw [if_neg htr] at h
        simp at h

theorem scanStack_staleMid {x y : Int} {l : List Sprite} {b : Bool}
    (h : scanStack x y l b = ScanResult.staleMid) :
    ∃ s ∈ l, staleAt x s = true := by
  induction l generalizing b with
  | nil => simp [scanStack] at h
  | cons s rest ih =>
    unfold scanStack at h
    by_cases hst : staleAt x s
    · exact ⟨s, List.mem_cons_self s rest, hst⟩
    · simp only [hst, Bool.false_eq_true, if_false] at h
      by_cases htr : (spritePixelAt s x y).isTransparent
      · rw [if_pos htr] at h
        obtain ⟨u, hu, hustale⟩ := ih h
        exact ⟨u, List.mem_cons_of_mem s hu, hustale⟩
      · rw [if_neg htr] at h
        simp at h

theorem scanStack_found {x y : Int} {l : List Sprite} {b : Bool} {p : SpritePixel}
    (h : scanStack x y l b = ScanResult.found p) :
    ∃ s, (l.filter (fun s => !staleAt x s)).find?
        (fun s => !(spritePixelAt s x y).isTransparent) = some s ∧
      p = spritePixelAt s x y := by
  induction l generalizing b with
  | nil => simp [scanStack] at h
  | cons s rest ih =>
    unfold scanStack at h
    by_cases hst : staleAt x s
    · simp only [hst, if_true] at h
      cases b <;> simp at h
    · simp only [hst, Bool.false_eq_true, if_false] at h
      by_cases htr : (spritePixelAt s x y).isTransparent
      · rw [if_pos htr] at h
        obtain ⟨u, hfind, hp⟩ := ih h
        refine ⟨u, ?_, hp⟩
        rw [List.filter_cons_of_pos (by simp [hst])]
        rw [List.find?_cons_of_neg _ (by simp [htr])]
        exact hfind
      · rw [if_neg htr] at h
        refine ⟨s, ?_, ?_⟩
        · rw [List.filter_cons_of_pos (by simp [hst])]
          exact List.find?_cons_of_pos _ (by simp [htr])
        · cases h
          rfl

theorem scanStack_noPixel {x y : Int} {l : List Sprite} {b : Bool}
    (h : scanStack x y l b = ScanResult.noPixel) :
    ∀ s ∈ l, staleAt x s = false ∧ (spritePixelAt s x y).isTransparent = true := by
  induction l generalizing b with
  | nil => simp
  | cons s rest ih =>
    unfold scanStack at h
    by_cases hst : staleAt x s
    · simp only [hst, if_true] at h
      cases b <;> simp at h
    · simp only [hst, Bool.false_eq_true, if_false] at h
      by_cases htr : (spritePixelAt s x y).isTransparent
      · rw [if_pos htr] at h
        intro u hu
        rcases List.mem_cons.mp hu with rfl | hu'
        · exact ⟨by simpa using hst, htr⟩
        · exact ih h u hu'
      · rw [if_neg htr] at h
        simp at h

theorem renderPixelGo_succ (x y : Int) (fuel : Nat) (stack : List Sprite) :
    renderPixelGo x y (fuel + 1) stack =
      match scanStack x y stack.reverse true with
      | ScanResult.found p => some (p, stack)
      | ScanResult.noPixel => some (SpritePixel.transparent, stack)
      | ScanResult.staleTop => renderPixelGo x y fuel stack.dropLast
      | ScanResult.staleMid => renderPixelGo x y fuel (removeInactive x stack) := rfl

theorem renderPixelGo_spec (x y : Int) :
    ∀ (fuel : Nat) (stack : List Sprite), stack.length < fuel →
    ∃ st', renderPixelGo x y fuel stack = some (pixResolve stack x y, st') ∧
      st'.Sublist stack ∧
      (stack.filter (fun s => !staleAt x s)).Sublist st' := by
  intro fuel
  induction fuel with
  | zero => intro stack h; omega
  | succ n ih =>
    intro stack hlen
    rw [renderPixelGo_succ]
    cases hscan : scanStack x y stack.reverse true with
    | found p =>
      obtain ⟨s, hfind, hp⟩ := scanStack_found hscan
      refine ⟨stack, ?_, List.Sublist.refl _, List.filter_sublist _⟩
      show some (p, stack) = some (pixResolve stack x y, stack)
      unfold pixResolve
      rw [hfind, hp]
    | noPixel =>
      have hall := scanStack_noPixel hscan
      refine ⟨stack, ?_, List.Sublist.refl _, List.filter_sublist _⟩
      show some (SpritePixel.transparent, stack) = some (pixResolve stack x y, stack)
      unfold pixResolve
      have hnone : (stack.reverse.filter (fun s => !staleAt x s)).find?
          (fun s => !(spritePixelAt s x y).isTransparent) = none := by
        rw [List.find?_eq_none]
        intro u hu
        have hu' := List.mem_of_mem_filter hu
        simp [(hall u hu').2]
      rw [hnone]
    | staleTop =>
      obtain ⟨t, rest, hrev, hstale⟩ := scanStack_staleTop hscan
      have hstack : stack = rest.reverse ++ [t] := by
        have := congrArg List.reverse hrev
        rw [List.reverse_reverse] at this
        simpa using this
      have hdrop : stack.dropLast = rest.reverse := by
        rw [hstack]
        exact List.dropLast_concat
      have hlen1 : stack.length = rest.length + 1 := by
        rw [hstack]
        simp
      obtain ⟨st', hgo, hsub, hsup⟩ := ih stack.dropLast (by rw [hdrop]; simp; omega)
      have hpr : pixResolve stack.dropLast x y = pixResolve stack x y := by
        unfold pixResolve
        rw [hdrop, List.reverse_reverse, hrev]
        rw [List.filter_cons_of_neg (by simp [hstale])]
      have hfl : stack.filter (fun s => !staleAt x s)
          = stack.dropLast.filter (fun s => !staleAt x s) := by
        rw [hdrop, hstack, List.filter_append]
        simp [hstale]
      refine ⟨st', ?_, hsub.trans (List.dropLast_sublist _), ?_⟩
      · show renderPixelGo x y n stack.dropLast = _
        rw [hgo, hpr]
      · rw [hfl]
        exact hsup
    | staleMid =>
      obtain ⟨s0, hmem, hstale⟩ := scanStack_staleMid hscan
      have hshrink : (removeInactive x stack).length < stack.length := by
        unfold removeInactive
        rw [List.length_filter_lt_length_iff_exists]
        exact ⟨s0, List.mem_reverse.mp hmem, by simp [hstale]⟩
      obtain ⟨st', hgo, hsub, hsup⟩ := ih (removeInactive x stack) (by omega)
      have hidem : (removeInactive x stack).filter (fun s => !staleAt x s)
          = removeInactive x stack := by
        unfold removeInactive
        rw [List.filter_filter]
        simp only [Bool.and_self]
      have hpr : pixResolve (removeInactive x stack) x y = pixResolve stack x y := by
        unfold pixResolve removeInactive
        rw [← List.filter_reverse, List.filter_filter]
        simp only [Bool.and_self]
      refine ⟨st', ?_, hsub.trans (List.filter_sublist _), ?_⟩
      · show renderPixelGo x y n (removeInactive x stack) = _
        rw [hgo, hpr]
      · have : stack.filter (fun s => !staleAt x s) = removeInactive x stack := rfl
        rw [this, ← hidem]
        exact hsup

theorem renderPixel_spec (stack : List Sprite) (x y : Int) :
    (renderPixel stack x y).1 = pixResolve stack x y ∧
    (renderPixel stack x y).2.Sublist stack ∧
    (stack.filter (fun s => !staleAt x s)).Sublist (renderPixel stack x y).2 := by
  obtain ⟨st', h, h1, h2⟩ := renderPixelGo_spec x y (stack.length + 1) stack (by omega)
  unfold renderPixel
  rw [h]
  exact ⟨rfl, h1, h2⟩

theorem renderPixelGo_fuel_eq (x y : Int) :
    ∀ f1 f2 stack, stack.length < f1 → stack.length < f2 →
      renderPixelGo x y f1 stack = renderPixelGo x y f2 stack := by
  intro f1
  induction f1 with
  | zero => intro f2 stack h _; omega
  | succ n ih =>
    intro f2 stack h1 h2
    cases f2 with
    | zero => omega
    | succ m =>
      rw [renderPixelGo_succ, renderPixelGo_succ]
      cases hscan : scanStack x y stack.reverse true with
      | found p => rfl
      | noPixel => rfl
      | staleTop =>
        show renderPixelGo x y n stack.dropLast = renderPixelGo x y m stack.dropLast
        obtain ⟨t, rest, hrev, _⟩ := scanStack_staleTop hscan
        have hne : stack ≠ [] := by
          intro hnil
          rw [hnil] at hrev
          simp at hrev
        have hpos : 0 < stack.length := List.length_pos.mpr hne
        have hlen : stack.dropLast.length = stack.length - 1 := List.length_dropLast _
        exact ih m stack.dropLast (by omega) (by omega)
      | staleMid =>
        show renderPixelGo x y n (removeInactive x stack)
          = renderPixelGo x y m (removeInactive x stack)
        obtain ⟨s0, hmem, hstale⟩ := scanStack_staleMid hscan
        have hshrink : (removeInactive x stack).length < stack.length := by
          unfold removeInactive
          rw [List.length_filter_lt_length_iff_exists]
          exact ⟨s0, List.mem_reverse.mp hmem, by simp [hstale]⟩
        exact ih m (removeInactive x stack) (by omega) (by omega)

theorem renderPixel_concat_top (l : List Sprite) (t : Sprite) (x y : Int)
    (hstale : staleAt x t = false)
    (hsolid : (spritePixelAt t x y).isTransparent = false) :
    renderPixel (l ++ [t]) x y = (spritePixelAt t x y, l ++ [t]) := by
  have hscan : scanStack x y (l ++ [t]).reverse true
      = ScanResult.found (spritePixelAt t x y) := by
    rw [List.reverse_append]
    show scanStack x y (t :: l.reverse) true = _
    unfold scanStack
    rw [if_neg (by simp [hstale]), if_neg (by simp [hsolid])]
  unfold renderPixel
  rw [renderPixelGo_succ, hscan]
  rfl

/-- Claim C10: `renderPixel` terminates for every sprite stack and
column.  Each pass through the `goto renderPixelRetry` loop strictly
shrinks the stack, so `stack.length + 1` scan rounds always produce a
result, and any larger fuel returns the same result. -/
theorem c10_renderPixel_terminates (stack : List Sprite) (x y : Int) :
    ∃ r, renderPixelGo x y (stack.length + 1) stack = some r ∧
      renderPixel stack x y = r ∧
      ∀ fuel, stack.length < fuel → renderPixelGo x y fuel stack = some r := by
  obtain ⟨st', h, _, _⟩ := renderPixelGo_spec x y (stack.length + 1) stack (by omega)
  refine ⟨(pixResolve stack x y, st'), h, ?_, ?_⟩
  · unfold renderPixel
    rw [h]
    rfl
  · intro fuel hf
    rw [renderPixelGo_fuel_eq x y fuel (stack.length + 1) stack hf (by omega)]
    exact h

/-- Witness for C10 at a concrete one-sprite stack. -/
theorem c10_witness :
    ∃ r, renderPixelGo 0 0 2
        [⟨⟨0, 0, 1, 1⟩, fun _ _ => SpritePixel.solid 3 4 5, 0⟩] = some r ∧
      renderPixel [⟨⟨0, 0, 1, 1⟩, fun _ _ => SpritePixel.solid 3 4 5, 0⟩] 0 0 = r ∧
      renderPixelGo 0 0 9
        [⟨⟨0, 0, 1, 1⟩, fun _ _ => SpritePixel.solid 3 4 5, 0⟩] = some r := by
  obtain ⟨r, h1, h2, h3⟩ := c10_renderPixel_terminates
      [⟨⟨0, 0, 1, 1⟩, fun _ _ => SpritePixel.solid 3 4 5, 0⟩] 0 0
  exact ⟨r, h1, h2, h3 9 (by decide)⟩

theorem IntRect.intersects_of_inter_nonempty {a b : IntRect}
    (h : (a.getIntersection b).isEmpty = false) : a.intersects b = true := by
  by_contra h'
  rw [IntRect.getIntersection_of_not_intersects (by simpa using h')] at h
  simp [IntRect.isEmpty] at h

theorem IntRect.x_le_lastX {r : IntRect} (h : r.isEmpty = false) :
    r.x ≤ r.getLastX ∧ r.y ≤ r.getLastY := by
  rw [IntRect.isEmpty_false_iff] at h
  unfold IntRect.getLastX IntRect.getLastY
  omega

theorem viewport_fields (w h : Nat) :
    (viewport w h).x = 0 ∧ (viewport w h).y = 0 ∧
    (viewport w h).getLastX = (w : Int) - 1 ∧
    (viewport w h).getLastY = (h : Int) - 1 := by
  unfold viewport IntRect.getLastX IntRect.getLastY
  norm_num

/-- A sprite belongs to raster line `y` of pass A exactly when this
predicate holds: its viewport clip is non-empty and spans row `y`. -/
def spriteOnRow (w h y : Nat) (s : Sprite) : Bool :=
  let vr := visibleRect w h s
  !vr.isEmpty && decide (vr.y ≤ (y : Int)) && decide ((y : Int) ≤ vr.getLastY)

theorem spriteOnRow_iff {w h y : Nat} {s : Sprite} :
    spriteOnRow w h y s = true ↔
      (visibleRect w h s).isEmpty = false ∧ (visibleRect w h s).y ≤ (y : Int) ∧
      (y : Int) ≤ (visibleRect w h s).getLastY := by
  simp [spriteOnRow, and_assoc]

theorem visibleRect_intersects {w h : Nat} {s : Sprite}
    (hne : (visibleRect w h s).isEmpty = false) :
    (viewport w h).intersects s.position = true :=
  IntRect.intersects_of_inter_nonempty hne

theorem spriteOnRow_contains {w h x y : Nat} {s : Sprite} (hx : x < w) (hy : y < h) :
    (spriteOnRow w h y s = true ∧ (visibleRect w h s).x ≤ (x : Int) ∧
      (x : Int) ≤ s.position.getLastX) ↔
    s.position.contains (x : Int) (y : Int) := by
  constructor
  · rintro ⟨hrow, hbx, hlx⟩
    obtain ⟨hne, hy1, hy2⟩ := spriteOnRow_iff.mp hrow
    have hvi := visibleRect_intersects hne
    have hvf := IntRect.getIntersection_lastX hvi
    have hvp := viewport_fields w h
    unfold visibleRect at *
    refine ⟨?_, hlx, ?_, ?_⟩
    · have := hvf.2.2.1
      rw [hvp.1] at this
      calc s.position.x ≤ max 0 s.position.x := le_max_right _ _
        _ = (viewport w h |>.getIntersection s.position).x := by rw [this]
        _ ≤ (x : Int) := hbx
    · have := hvf.2.2.2.1
      rw [hvp.2.1] at this
      calc s.position.y ≤ max 0 s.position.y := le_max_right _ _
        _ = (viewport w h |>.getIntersection s.position).y := by rw [this]
        _ ≤ (y : Int) := hy1
    · have := hvf.2.1
      rw [hvp.2.2.2] at this
      calc (y : Int) ≤ (viewport w h |>.getIntersection s.position).getLastY := hy2
        _ = min ((h : Int) - 1) s.position.getLastY := this
        _ ≤ s.position.getLastY := min_le_right _ _
  · intro hc
    have hcv : (viewport w h).contains (x : Int) (y : Int) := by
      unfold IntRect.contains viewport IntRect.getLastX IntRect.getLastY
      dsimp only
      omega
    have hvi := IntRect.intersects_of_contains hcv hc
    have hvf := IntRect.getIntersection_lastX hvi
    have hvp := viewport_fields w h
    obtain ⟨hc1, hc2, hc3, hc4⟩ := hc
    refine ⟨spriteOnRow_iff.mpr ⟨hvf.2.2.2.2, ?_, ?_⟩, ?_, hc2⟩
    · show (visibleRect w h s).y ≤ (y : Int)
      unfold visibleRect
      rw [hvf.2.2.2.1, hvp.2.1]
      rw [max_le_iff]
      omega
    · show (y : Int) ≤ (visibleRect w h s).getLastY
      unfold visibleRect
      rw [hvf.2.1, hvp.2.2.2]
      rw [le_min_iff]
      omega
    · show (visibleRect w h s).x ≤ (x : Int)
      unfold visibleRect
      rw [hvf.2.2.1, hvp.1]
      rw [max_le_iff]
      omega

theorem visibleRect_facts {w h : Nat} {s : Sprite}
    (hne : (visibleRect w h s).isEmpty = false) :
    0 ≤ (visibleRect w h s).x ∧
    s.position.x ≤ (visibleRect w h s).x ∧
    0 ≤ (visibleRect w h s).y ∧
    s.position.y ≤ (visibleRect w h s).y ∧
    (visibleRect w h s).getLastX ≤ (w : Int) - 1 ∧
    (visibleRect w h s).getLastX ≤ s.position.getLastX ∧
    (visibleRect w h s).getLastY ≤ (h : Int) - 1 ∧
    (visibleRect w h s).getLastY ≤ s.position.getLastY ∧
    (visibleRect w h s).x ≤ (visibleRect w h s).getLastX ∧
    (visibleRect w h s).y ≤ (visibleRect w h s).getLastY := by
  have hvi := visibleRect_intersects hne
  have hvf := IntRect.getIntersection_lastX hvi
  have hvp := viewport_fields w h
  have hxl := IntRect.x_le_lastX hne
  unfold visibleRect at *
  refine ⟨?_, ?_, ?_, ?_, ?_, ?_, ?_, ?_, hxl.1, hxl.2⟩
  · rw [hvf.2.2.1, hvp.1]
    exact le_max_left _ _
  · rw [hvf.2.2.1]
    exact le_max_right _ _
  · rw [hvf.2.2.2.1, hvp.2.1]
    exact le_max_left _ _
  · rw [hvf.2.2.2.1]
    exact le_max_right _ _
  · rw [hvf.1, hvp.2.2.1]
    exact min_le_left _ _
  · rw [hvf.1]
    exact min_le_right _ _
  · rw [hvf.2.1, hvp.2.2.2]
    exact min_le_left _ _
  · rw [hvf.2.1]
    exact min_le_right _ _

theorem blockInter_eq (w h i : Nat) (s : Sprite) :
    (blockViewport w h i).getIntersection s.position =
      (IntRect.mk 0 ((i : Int) * 8) w 8).getIntersection (visibleRect w h s) := by
  unfold blockViewport visibleRect
  rw [IntRect.getIntersection_assoc]

theorem inter_row_sub {t vr : IntRect} {yy : Int}
    (hne : (t.getIntersection vr).isEmpty = false)
    (h1 : (t.getIntersection vr).y ≤ yy) (h2 : yy ≤ (t.getIntersection vr).getLastY)
    (hx0 : 0 ≤ vr.x) (htx : t.x = 0) :
    vr.y ≤ yy ∧ yy ≤ vr.getLastY ∧ (t.getIntersection vr).x = vr.x := by
  have hbi := IntRect.intersects_of_inter_nonempty hne
  have hbf := IntRect.getIntersection_lastX hbi
  refine ⟨le_trans (by rw [hbf.2.2.2.1]; exact le_max_right _ _) h1,
    le_trans h2 (by rw [hbf.2.1]; exact min_le_right _ _), ?_⟩
  rw [hbf.2.2.1, htx]
  exact max_eq_right hx0

theorem inter_row_full {t vr : IntRect} {yy : Int}
    (hbi : t.intersects vr = true)
    (h1 : t.y ≤ yy) (h2 : yy ≤ t.getLastY)
    (h3 : vr.y ≤ yy) (h4 : yy ≤ vr.getLastY) (hx0 : 0 ≤ vr.x) (htx : t.x = 0) :
    (t.getIntersection vr).isEmpty = false ∧ (t.getIntersection vr).y ≤ yy ∧
    yy ≤ (t.getIntersection vr).getLastY ∧ (t.getIntersection vr).x = vr.x := by
  have hbf := IntRect.getIntersection_lastX hbi
  refine ⟨hbf.2.2.2.2, ?_, ?_, ?_⟩
  · rw [hbf.2.2.2.1]
    exact max_le h1 h3
  · rw [hbf.2.1]
    exact le_min h2 h4
  · rw [hbf.2.2.1, htx]
    exact max_eq_right hx0

theorem mem_lineBeginList {w h : Nat} {sprites : List Sprite} {y x : Nat} {s : Sprite} :
    s ∈ lineBeginList w h sprites y x ↔
      s ∈ sprites ∧ spriteOnRow w h y s = true ∧ (visibleRect w h s).x = (x : Int) := by
  unfold lineBeginList
  rw [List.mem_filter, List.mem_filter]
  simp only [spriteInBlock, beginCellCond, Bool.and_eq_true, Bool.not_eq_true',
    decide_eq_true_eq]
  rw [blockInter_eq w h (y / 8) s]
  constructor
  · rintro ⟨⟨hmem, _⟩, ⟨⟨hbne, hby⟩, hby2⟩, hbx⟩
    have hbi := IntRect.intersects_of_inter_nonempty hbne
    have hvrne : (visibleRect w h s).isEmpty = false := by
      have hii := (IntRect.intersects_iff _ _).mp hbi
      rw [IntRect.isEmpty_false_iff]
      exact ⟨hii.2.2.1, hii.2.2.2.1⟩
    have hfacts := visibleRect_facts hvrne
    have hsub := inter_row_sub hbne hby hby2 hfacts.1 rfl
    refine ⟨hmem, spriteOnRow_iff.mpr ⟨hvrne, hsub.1, hsub.2.1⟩, ?_⟩
    rw [← hsub.2.2]
    exact hbx
  · rintro ⟨hmem, hrow, hbx⟩
    obtain ⟨hne, hy1, hy2⟩ := spriteOnRow_iff.mp hrow
    have hfacts := visibleRect_facts hne
    have htc : (IntRect.mk 0 ((y / 8 : Nat) * 8 : Int) w 8).contains
        (visibleRect w h s).x (y : Int) := by
      unfold IntRect.contains IntRect.getLastX IntRect.getLastY
      dsimp only
      have h1 := hfacts.1
      have h2 := hfacts.2.2.2.2.1
      have h3 := hfacts.2.2.2.2.2.2.2.2.1
      refine ⟨h1, by omega, by omega, by omega⟩
    have hvc : (visibleRect w h s).contains (visibleRect w h s).x (y : Int) :=
      ⟨le_refl _, hfacts.2.2.2.2.2.2.2.2.1, hy1, hy2⟩
    have hbi := IntRect.intersects_of_contains htc hvc
    have hfull := inter_row_full hbi htc.2.2.1 htc.2.2.2 hy1 hy2 hfacts.1 rfl
    refine ⟨⟨hmem, ⟨hne, ?_⟩, ?_⟩, ⟨⟨hfull.1, hfull.2.1⟩, hfull.2.2.1⟩, ?_⟩
    · have h1 := hfacts.2.2.1
      omega
    · have h1 := hfacts.2.2.2.2.2.2.2.2.2
      have h2 := hfacts.2.2.1
      omega
    · rw [hfull.2.2.2]
      exact hbx

theorem lineStack_inv (w h : Nat) (sprites : List Sprite) (y x : Nat) :
    (∀ s ∈ lineStackBL (lineBeginList w h sprites y) (y : Int) x,
      s ∈ sprites ∧ spriteOnRow w h y s = true ∧ (visibleRect w h s).x < (x : Int)) ∧
    (∀ s ∈ sprites, spriteOnRow w h y s = true → (visibleRect w h s).x ≤ (x : Int) - 1 →
      (x : Int) - 1 ≤ s.position.getLastX →
      s ∈ lineStackBL (lineBeginList w h sprites y) (y : Int) x) ∧
    (lineStackBL (lineBeginList w h sprites y) (y : Int) x).Pairwise
      (fun a b => a.layer ≤ b.layer) := by
  induction x with
  | zero =>
    refine ⟨by simp [lineStackBL], ?_, by simp [lineStackBL]⟩
    intro s _ hrow hbx _
    exfalso
    have := (visibleRect_facts (spriteOnRow_iff.mp hrow).1).1
    omega
  | succ x ih =>
    obtain ⟨ihS, ihC, ihP⟩ := ih
    have hstep : lineStackBL (lineBeginList w h sprites y) (y : Int) (x + 1)
        = (renderPixel
            (insertAllActivated (lineStackBL (lineBeginList w h sprites y) (y : Int) x)
              (lineBeginList w h sprites y x)) (x : Int) (y : Int)).2 := rfl
    have hTsorted : (insertAllActivated (lineStackBL (lineBeginList w h sprites y) (y : Int) x)
        (lineBeginList w h sprites y x)).Pairwise (fun a b => a.layer ≤ b.layer) :=
      insertAllActivated_sorted _ ihP
    have hrp := renderPixel_spec
      (insertAllActivated (lineStackBL (lineBeginList w h sprites y) (y : Int) x)
        (lineBeginList w h sprites y x)) (x : Int) (y : Int)
    refine ⟨?_, ?_, ?_⟩
    · intro s hs
      rw [hstep] at hs
      have hsT := hrp.2.1.subset hs
      rcases mem_insertAllActivated.mp hsT with hsS | hsB
      · have hps := ihS s hsS
        refine ⟨hps.1, hps.2.1, ?_⟩
        have := hps.2.2
        push_cast
        omega
      · have hps := mem_lineBeginList.mp hsB
        refine ⟨hps.1, hps.2.1, ?_⟩
        rw [hps.2.2]
        push_cast
        omega
    · intro s hsmem hrow hble hlast
      have hble' : (visibleRect w h s).x ≤ (x : Int) := by push_cast at hble; omega
      have hlast' : (x : Int) ≤ s.position.getLastX := by push_cast at hlast; omega
      have hsT : s ∈ insertAllActivated (lineStackBL (lineBeginList w h sprites y) (y : Int) x)
          (lineBeginList w h sprites y x) := by
        rcases lt_or_eq_of_le hble' with hlt | heq
        · exact mem_insertAllActivated.mpr
            (Or.inl (ihC s hsmem hrow (by omega) (by omega)))
        · exact mem_insertAllActivated.mpr
            (Or.inr (mem_lineBeginList.mpr ⟨hsmem, hrow, heq⟩))
      rw [hstep]
      apply hrp.2.2.subset
      rw [List.mem_filter]
      refine ⟨hsT, ?_⟩
      simp only [staleAt, Bool.not_eq_true', decide_eq_false_iff_not, not_lt]
      exact hlast'
    · rw [hstep]
      exact List.Pairwise.sublist hrp.2.1 hTsorted

theorem stackResolved_props (w h : Nat) (sprites : List Sprite) (y x : Nat) :
    (∀ s ∈ stackResolved w h sprites y x,
      s ∈ sprites ∧ spriteOnRow w h y s = true ∧ (visibleRect w h s).x ≤ (x : Int)) ∧
    (∀ s ∈ sprites, spriteOnRow w h y s = true → (visibleRect w h s).x ≤ (x : Int) →
      (x : Int) ≤ s.position.getLastX → s ∈ stackResolved w h sprites y x) ∧
    (stackResolved w h sprites y x).Pairwise (fun a b => a.layer ≤ b.layer) := by
  obtain ⟨hS, hC, hP⟩ := lineStack_inv w h sprites y x
  unfold stackResolved stackResolvedBL
  refine ⟨?_, ?_, insertAllActivated_sorted _ hP⟩
  · intro s hs
    rcases mem_insertAllActivated.mp hs with h1 | h1
    · have := hS s h1
      exact ⟨this.1, this.2.1, le_of_lt this.2.2⟩
    · have := mem_lineBeginList.mp h1
      exact ⟨this.1, this.2.1, le_of_eq this.2.2⟩
  · intro s hsmem hrow hble hlast
    rcases lt_or_eq_of_le hble with hlt | heq
    · exact mem_insertAllActivated.mpr (Or.inl (hC s hsmem hrow (by omega) (by omega)))
    · exact mem_insertAllActivated.mpr (Or.inr (mem_lineBeginList.mpr ⟨hsmem, hrow, heq⟩))

theorem find?_max_of_desc {p : Sprite → Bool} :
    ∀ {m : List Sprite}, m.Pairwise (fun a b => b.layer ≤ a.layer) →
    ∀ {u}, m.find? p = some u →
      p u = true ∧ u ∈ m ∧ ∀ t ∈ m, p t = true → t.layer ≤ u.layer := by
  intro m
  induction m with
  | nil => intro _ u hfind; simp at hfind
  | cons a rest ih =>
    intro hp u hfind
    have hp1 := List.pairwise_cons.mp hp
    by_cases hpa : p a = true
    · rw [List.find?_cons_of_pos _ hpa] at hfind
      cases hfind
      refine ⟨hpa, List.mem_cons_self _ _, ?_⟩
      intro t ht _
      rcases List.mem_cons.mp ht with rfl | ht'
      · exact le_refl _
      · exact hp1.1 t ht'
    · rw [List.find?_cons_of_neg _ (by simpa using hpa)] at hfind
      obtain ⟨h1, h2, h3⟩ := ih hp1.2 hfind
      refine ⟨h1, List.mem_cons_of_mem _ h2, ?_⟩
      intro t ht hpt
      rcases List.mem_cons.mp ht with rfl | ht'
      · exact absurd hpt hpa
      · exact h3 t ht' hpt

theorem renderedAt_def (w h : Nat) (sprites : List Sprite)
    (packer : Nat → Nat → Nat → Nat) (x y : Nat) :
    renderedAt w h sprites packer x y =
      (let pix0 := (renderPixel (stackResolved w h sprites y x) (x : Int) (y : Int)).1
       let pix := if pix0.isTransparent then SpritePixel.solid 0 0 0 else pix0
       packer pix.r pix.g pix.b) := rfl

theorem renderedAt_black (w h : Nat) (sprites : List Sprite)
    (packer : Nat → Nat → Nat → Nat) (x y : Nat) (hx : x < w) (hy : y < h)
    (hnone : ∀ t ∈ sprites, t.position.contains (x : Int) (y : Int) →
      (spritePixelAt t (x : Int) (y : Int)).isTransparent = true) :
    renderedAt w h sprites packer x y = packer 0 0 0 := by
  have hT := stackResolved_props w h sprites y x
  have hrp := renderPixel_spec (stackResolved w h sprites y x) (x : Int) (y : Int)
  have hfind : ((stackResolved w h sprites y x).reverse.filter
      (fun s => !staleAt (x : Int) s)).find?
        (fun s => !(spritePixelAt s (x : Int) (y : Int)).isTransparent) = none := by
    rw [List.find?_eq_none]
    intro u hu
    have hu1 := List.mem_reverse.mp (List.mem_of_mem_filter hu)
    have hu2 := List.of_mem_filter hu
    have hprops := hT.1 u hu1
    have hustale : (x : Int) ≤ u.position.getLastX := by
      simp only [staleAt, Bool.not_eq_true', decide_eq_false_iff_not, not_lt] at hu2
      exact hu2
    have hcont := (spriteOnRow_contains hx hy).mp ⟨hprops.2.1, hprops.2.2, hustale⟩
    simp [hnone u hprops.1 hcont]
  have hpr : pixResolve (stackResolved w h sprites y x) (x : Int) (y : Int)
      = SpritePixel.transparent := by
    unfold pixResolve
    rw [hfind]
  rw [renderedAt_def, hrp.1, hpr]
  rfl

theorem renderedAt_eq_of_candidate (w h : Nat) (sprites : List Sprite)
    (packer : Nat → Nat → Nat → Nat) (x y : Nat) (hx : x < w) (hy : y < h)
    (hdist : sprites.Pairwise (fun a b => a.layer ≠ b.layer))
    (s : Sprite) (hsmem : s ∈ sprites)
    (hc : s.position.contains (x : Int) (y : Int))
    (hsolid : (spritePixelAt s (x : Int) (y : Int)).isTransparent = false)
    (hmax : ∀ t ∈ sprites, t.position.contains (x : Int) (y : Int) →
      (spritePixelAt t (x : Int) (y : Int)).isTransparent = false → t.layer ≤ s.layer) :
    renderedAt w h sprites packer x y =
      packer (spritePixelAt s (x : Int) (y : Int)).r
        (spritePixelAt s (x : Int) (y : Int)).g
        (spritePixelAt s (x : Int) (y : Int)).b := by
  have hT := stackResolved_props w h sprites y x
  have hrp := renderPixel_spec (stackResolved w h sprites y x) (x : Int) (y : Int)
  have hdesc : ((stackResolved w h sprites y x).reverse.filter
      (fun t => !staleAt (x : Int) t)).Pairwise (fun a b => b.layer ≤ a.layer) := by
    apply List.Pairwise.filter
    rw [List.pairwise_reverse]
    exact hT.2.2
  have hrowc := (spriteOnRow_contains hx hy).mpr hc
  have hsT : s ∈ stackResolved w h sprites y x :=
    hT.2.1 s hsmem hrowc.1 hrowc.2.1 hrowc.2.2
  have hsF : s ∈ (stackResolved w h sprites y x).reverse.filter
      (fun t => !staleAt (x : Int) t) := by
    rw [List.mem_filter]
    refine ⟨List.mem_reverse.mpr hsT, ?_⟩
    simp only [staleAt, Bool.not_eq_true', decide_eq_false_iff_not, not_lt]
    exact hrowc.2.2
  cases hfind : ((stackResolved w h sprites y x).reverse.filter
      (fun t => !staleAt (x : Int) t)).find?
        (fun t => !(spritePixelAt t (x : Int) (y : Int)).isTransparent) with
  | none =>
    exfalso
    have := List.find?_eq_none.mp hfind s hsF
    simp [hsolid] at this
  | some u =>
    obtain ⟨hpu, huF, humax⟩ := find?_max_of_desc hdesc hfind
    have huT := List.mem_reverse.mp (List.mem_of_mem_filter huF)
    have hu2 := List.of_mem_filter huF
    have hustale : (x : Int) ≤ u.position.getLastX := by
      simp only [staleAt, Bool.not_eq_true', decide_eq_false_iff_not, not_lt] at hu2
      exact hu2
    have huprops := hT.1 u huT
    have hucont := (spriteOnRow_contains hx hy).mp ⟨huprops.2.1, huprops.2.2, hustale⟩
    have husolid : (spritePixelAt u (x : Int) (y : Int)).isTransparent = false := by
      simpa using hpu
    have hle1 : u.layer ≤ s.layer := hmax u huprops.1 hucont husolid
    have hle2 : s.layer ≤ u.layer := humax s hsF (by simp [hsolid])
    have hsym : Symmetric (fun a b : Sprite => a.layer ≠ b.layer) := by
      intro a b hab hba
      exact hab hba.symm
    have hus : u = s := by
      by_contra hne
      exact hdist.forall hsym huprops.1 hsmem hne (by omega)
    have hpr : pixResolve (stackResolved w h sprites y x) (x : Int) (y : Int)
        = spritePixelAt s (x : Int) (y : Int) := by
      unfold pixResolve
      rw [hfind, hus]
    rw [renderedAt_def, hrp.1, hpr]
    simp [hsolid]

/-- Claim C1: for every frame, row `y < height` and column `x < width`,
the 32-bit value stored at `(x, y)` is the packer applied to the (r,g,b)
of the topmost (largest-layer) sprite that covers `(x, y)` and whose
pixel there is not transparent, and the packer applied to `(0,0,0)` when
no covering sprite has an opaque pixel there.  The phrase "the topmost
(largest-layer) sprite" presupposes a unique maximum, so the theorem
assumes pairwise-distinct layers. -/
theorem c1_topmost_sprite_rendered (w h : Nat) (sprites : List Sprite)
    (packer : Nat → Nat → Nat → Nat) (x y : Nat) (hx : x < w) (hy : y < h)
    (hdist : sprites.Pairwise (fun a b => a.layer ≠ b.layer)) :
    (∀ s ∈ sprites, s.position.contains (x : Int) (y : Int) →
      (spritePixelAt s (x : Int) (y : Int)).isTransparent = false →
      (∀ t ∈ sprites, t.position.contains (x : Int) (y : Int) →
        (spritePixelAt t (x : Int) (y : Int)).isTransparent = false → t.layer ≤ s.layer) →
      renderedAt w h sprites packer x y =
        packer (spritePixelAt s (x : Int) (y : Int)).r
          (spritePixelAt s (x : Int) (y : Int)).g
          (spritePixelAt s (x : Int) (y : Int)).b) ∧
    ((∀ t ∈ sprites, t.position.contains (x : Int) (y : Int) →
        (spritePixelAt t (x : Int) (y : Int)).isTransparent = true) →
      renderedAt w h sprites packer x y = packer 0 0 0) :=
  ⟨fun s hs hc hsolid hmax =>
      renderedAt_eq_of_candidate w h sprites packer x y hx hy hdist s hs hc hsolid hmax,
   fun hnone => renderedAt_black w h sprites packer x y hx hy hnone⟩

/-- Witness for C1: a layer-7 sprite over a layer-0 background at
`(1, 0)` of a 4-by-1 frame. -/
theorem c1_witness :
    renderedAt 4 1
      [⟨⟨0, 0, 4, 1⟩, fun _ _ => SpritePixel.solid 1 2 3, 0⟩,
       ⟨⟨1, 0, 2, 1⟩, fun _ _ => SpritePixel.solid 9 8 7, 7⟩] rgbToARGB8888 1 0
      = rgbToARGB8888 9 8 7 := by
  have hmem : (⟨⟨1, 0, 2, 1⟩, fun _ _ => SpritePixel.solid 9 8 7, 7⟩ : Sprite) ∈
      [⟨⟨0, 0, 4, 1⟩, fun _ _ => SpritePixel.solid 1 2 3, 0⟩,
       ⟨⟨1, 0, 2, 1⟩, fun _ _ => SpritePixel.solid 9 8 7, 7⟩] :=
    List.Mem.tail _ (List.Mem.head _)
  have hdist : List.Pairwise (fun a b : Sprite => a.layer ≠ b.layer)
      [⟨⟨0, 0, 4, 1⟩, fun _ _ => SpritePixel.solid 1 2 3, 0⟩,
       ⟨⟨1, 0, 2, 1⟩, fun _ _ => SpritePixel.solid 9 8 7, 7⟩] := by
    constructor
    · intro b hb
      rcases List.mem_cons.mp hb with rfl | hb2
      · decide
      · simp at hb2
    · constructor
      · intro b hb
        simp at hb
      · constructor
  have happ := (c1_topmost_sprite_rendered 4 1 _ rgbToARGB8888 1 0 (by decide) (by decide)
    hdist).1 _ hmem (by decide) rfl
  have happ2 := happ ?hmax
  case hmax =>
    intro t ht _ _
    rcases List.mem_cons.mp ht with rfl | ht2
    · decide
    · rcases List.mem_cons.mp ht2 with rfl | ht3
      · decide
      · simp at ht3
  exact happ2

/-- Claim C2: a single sprite with constant opaque color writes the
packed color at every frame pixel inside `position ∩ viewport` and the
packed `(0,0,0)` at every other frame pixel. -/
theorem c2_single_solid_sprite (w h : Nat) (pos : IntRect) (layer cr cg cb : Nat)
    (packer : Nat → Nat → Nat → Nat) (x y : Nat) (hx : x < w) (hy : y < h) :
    renderedAt w h [⟨pos, fun _ _ => SpritePixel.solid cr cg cb, layer⟩] packer x y =
      if (pos.getIntersection (viewport w h)).contains (x : Int) (y : Int)
      then packer cr cg cb else packer 0 0 0 := by
  by_cases hc : (pos.getIntersection (viewport w h)).contains (x : Int) (y : Int)
  · rw [if_pos hc]
    rw [IntRect.contains_getIntersection] at hc
    have hmax : ∀ t ∈ [(⟨pos, fun _ _ => SpritePixel.solid cr cg cb, layer⟩ : Sprite)],
        t.position.contains (x : Int) (y : Int) →
        (spritePixelAt t (x : Int) (y : Int)).isTransparent = false →
        t.layer ≤ (⟨pos, fun _ _ => SpritePixel.solid cr cg cb, layer⟩ : Sprite).layer := by
      intro t ht _ _
      rcases List.mem_cons.mp ht with rfl | ht2
      · exact le_refl _
      · simp at ht2
    exact renderedAt_eq_of_candidate w h _ packer x y hx hy (by simp)
      ⟨pos, fun _ _ => SpritePixel.solid cr cg cb, layer⟩ (List.Mem.head _)
      hc.1 rfl hmax
  · rw [if_neg hc]
    apply renderedAt_black w h _ packer x y hx hy
    intro t ht hcont
    exfalso
    rcases List.mem_cons.mp ht with rfl | ht2
    · apply hc
      rw [IntRect.contains_getIntersection]
      refine ⟨hcont, ?_⟩
      unfold IntRect.contains viewport IntRect.getLastX IntRect.getLastY
      dsimp only
      omega
    · simp at ht2

/-- Witness for C2: one constant red-ish sprite on a 3-by-2 frame, one
covered pixel and one uncovered pixel. -/
theorem c2_witness :
    renderedAt 3 2 [⟨⟨1, 0, 2, 1⟩, fun _ _ => SpritePixel.solid 5 6 7, 4⟩]
        rgbToARGB8888 1 0 = rgbToARGB8888 5 6 7 ∧
    renderedAt 3 2 [⟨⟨1, 0, 2, 1⟩, fun _ _ => SpritePixel.solid 5 6 7, 4⟩]
        rgbToARGB8888 0 1 = rgbToARGB8888 0 0 0 := by
  constructor
  · have h := c2_single_solid_sprite 3 2 ⟨1, 0, 2, 1⟩ 4 5 6 7 rgbToARGB8888 1 0
      (by decide) (by decide)
    rw [if_pos (by decide)] at h
    exact h
  · have h := c2_single_solid_sprite 3 2 ⟨1, 0, 2, 1⟩ 4 5 6 7 rgbToARGB8888 0 1
      (by decide) (by decide)
    rw [if_neg (by decide)] at h
    exact h

/-- Claim C8 as stated is refuted: removal of stale sprites is lazy, so
the stack can still hold a sprite whose x-range does not cover the
current column.  Concretely: a layer-0 sprite spanning column 0 only and
a layer-1 opaque sprite spanning columns 0..2; at column 1 the layer-0
sprite is still on the stack handed to `renderPixel` although its
x-range `[0, 0]` does not cover column 1. -/
theorem c8_counterexample :
    ¬ (∀ s ∈ stackResolved 3 1
        [⟨⟨0, 0, 1, 1⟩, fun _ _ => SpritePixel.solid 7 7 7, 0⟩,
         ⟨⟨0, 0, 3, 1⟩, fun _ _ => SpritePixel.solid 9 9 9, 1⟩] 0 1,
        (visibleRect 3 1 s).x ≤ (1 : Int) ∧ (1 : Int) ≤ s.position.getLastX) := by
  intro hall
  have hexists : (stackResolved 3 1
      [⟨⟨0, 0, 1, 1⟩, fun _ _ => SpritePixel.solid 7 7 7, 0⟩,
       ⟨⟨0, 0, 3, 1⟩, fun _ _ => SpritePixel.solid 9 9 9, 1⟩] 0 1).any
      (fun s => decide (s.position.getLastX < (1 : Int))) = true := by decide
  rw [List.any_eq_true] at hexists
  obtain ⟨s, hs, hstale⟩ := hexists
  have h2 := (hall s hs).2
  rw [decide_eq_true_eq] at hstale
  omega

/-- Claim C8, amended: at every column `x` the stack handed to
`renderPixel` contains every row sprite whose clipped x-range
`[max(sprite.x, 0), sprite.last_x]` covers `x`; every member is a sprite
of the row whose first column is at most `x` — but sprites already past
their last column may transiently remain until a scan reaches them — and
the stack is ordered by layer, largest layer at the back. -/
theorem c8_stack_invariant (w h : Nat) (sprites : List Sprite) (y x : Nat) :
    (∀ s ∈ sprites, spriteOnRow w h y s = true → (visibleRect w h s).x ≤ (x : Int) →
      (x : Int) ≤ s.position.getLastX → s ∈ stackResolved w h sprites y x) ∧
    (∀ s ∈ stackResolved w h sprites y x,
      s ∈ sprites ∧ spriteOnRow w h y s = true ∧ (visibleRect w h s).x ≤ (x : Int)) ∧
    (stackResolved w h sprites y x).Pairwise (fun a b => a.layer ≤ b.layer) := by
  obtain ⟨h1, h2, h3⟩ := stackResolved_props w h sprites y x
  exact ⟨h2, h1, h3⟩

/-- Witness for the amended C8: the wide sprite is on the stack at
column 1 of the counterexample scenario. -/
theorem c8_witness :
    (⟨⟨0, 0, 3, 1⟩, fun _ _ => SpritePixel.solid 9 9 9, 1⟩ : Sprite) ∈
      stackResolved 3 1
        [⟨⟨0, 0, 1, 1⟩, fun _ _ => SpritePixel.solid 7 7 7, 0⟩,
         ⟨⟨0, 0, 3, 1⟩, fun _ _ => SpritePixel.solid 9 9 9, 1⟩] 0 1 :=
  (c8_stack_invariant 3 1
      [⟨⟨0, 0, 1, 1⟩, fun _ _ => SpritePixel.solid 7 7 7, 0⟩,
       ⟨⟨0, 0, 3, 1⟩, fun _ _ => SpritePixel.solid 9 9 9, 1⟩] 0 1).1
    _ (List.Mem.tail _ (List.Mem.head _)) (by decide) (by decide) (by decide)

theorem storeRow_spec (row : List Nat) : ∀ (fb : Nat → Nat) (base i : Nat),
    storeRow fb base row i =
      if base ≤ i ∧ i < base + 4 * row.length
      then (row.getD ((i - base) / 4) 0) / 256 ^ ((i - base) % 4) % 256
      else fb i := by
  induction row with
  | nil =>
    intro fb base i
    show fb i = _
    rw [if_neg (by simp only [List.length_nil]; omega)]
  | cons v vs ih =>
    intro fb base i
    show storeRow (storeWord fb base v) (base + 4) vs i = _
    rw [ih]
    by_cases h1 : base + 4 ≤ i ∧ i < base + 4 + 4 * vs.length
    · rw [if_pos h1, if_pos (by simp only [List.length_cons]; omega)]
      have hq : (i - base) / 4 = (i - (base + 4)) / 4 + 1 := by omega
      have hr : (i - base) % 4 = (i - (base + 4)) % 4 := by omega
      rw [hq, hr]
      rfl
    · rw [if_neg h1]
      unfold storeWord
      by_cases h2 : base ≤ i ∧ i < base + 4
      · rw [if_pos h2, if_pos (by simp only [List.length_cons]; omega)]
        have hq : (i - base) / 4 = 0 := by omega
        have hr : (i - base) % 4 = i - base := by omega
        rw [hq, hr]
        rfl
      · rw [if_neg h2, if_neg (by simp only [List.length_cons]; omega)]

theorem foldl_storeRow_untouched (pitch : Nat) (rows : Nat → List Nat) :
    ∀ (ys : List Nat) (fb : Nat → Nat) (i : Nat),
      (∀ y ∈ ys, ¬ (y * pitch ≤ i ∧ i < y * pitch + 4 * (rows y).length)) →
      ys.foldl (fun acc y => storeRow acc (y * pitch) (rows y)) fb i = fb i := by
  intro ys
  induction ys with
  | nil => intro fb i _; rfl
  | cons y0 rest ih =>
    intro fb i hno
    show rest.foldl _ (storeRow fb (y0 * pitch) (rows y0)) i = fb i
    rw [ih _ i (fun y hy => hno y (List.mem_cons_of_mem _ hy))]
    rw [storeRow_spec]
    rw [if_neg (hno y0 (List.mem_cons_self _ _))]

theorem foldl_storeRow_written (pitch : Nat) (rows : Nat → List Nat) :
    ∀ (ys : List Nat) (fb : Nat → Nat) (y i : Nat), y ∈ ys → ys.Nodup →
      (y * pitch ≤ i ∧ i < y * pitch + 4 * (rows y).length) →
      (∀ y' ∈ ys, y' ≠ y → ¬ (y' * pitch ≤ i ∧ i < y' * pitch + 4 * (rows y').length)) →
      ys.foldl (fun acc y => storeRow acc (y * pitch) (rows y)) fb i =
        ((rows y).getD ((i - y * pitch) / 4) 0) / 256 ^ ((i - y * pitch) % 4) % 256 := by
  intro ys
  induction ys with
  | nil => intro fb y i hy; simp at hy
  | cons y0 rest ih =>
    intro fb y i hy hnd hin hothers
    have hnd1 := List.nodup_cons.mp hnd
    show rest.foldl _ (storeRow fb (y0 * pitch) (rows y0)) i = _
    rcases List.mem_cons.mp hy with rfl | hyrest
    · rw [foldl_storeRow_untouched pitch rows rest _ i ?hrest]
      · rw [storeRow_spec, if_pos hin]
      case hrest =>
        intro y' hy'
        apply hothers y' (List.mem_cons_of_mem _ hy')
        intro heq
        rw [heq] at hy'
        exact hnd1.1 hy'
    · exact ih _ y i hyrest hnd1.2 hin
        (fun y' hy' hne => hothers y' (List.mem_cons_of_mem _ hy') hne)

theorem renderLine_length (w h : Nat) (sprites : List Sprite)
    (packer : Nat → Nat → Nat → Nat) (y : Nat) :
    (renderLine w h sprites packer y).length = w := by
  unfold renderLine renderLineBL
  rw [List.length_map, List.length_range]

theorem renderLine_getD {w h : Nat} {sprites : List Sprite}
    {packer : Nat → Nat → Nat → Nat} {y j : Nat} (hj : j < w) :
    (renderLine w h sprites packer y).getD j 0 = renderedAt w h sprites packer j y := by
  unfold renderLine renderLineBL renderedAt
  rw [List.getD_eq_getElem?_getD, List.getElem?_map, List.getElem?_range hj]
  rfl

theorem row_regions_disjoint {pitch w y y' k : Nat} (hpitch : 4 * w ≤ pitch)
    (hne : y' ≠ y) (hk : k < pitch) :
    ¬ (y' * pitch ≤ y * pitch + k ∧ y * pitch + k < y' * pitch + 4 * w) := by
  rintro ⟨h1, h2⟩
  rcases Nat.lt_or_ge y' y with hlt | hge
  · have hmul : (y' + 1) * pitch ≤ y * pitch := Nat.mul_le_mul_right _ (by omega)
    rw [Nat.add_mul, Nat.one_mul] at hmul
    omega
  · have hgt : y < y' := by omega
    have hmul : (y + 1) * pitch ≤ y' * pitch := Nat.mul_le_mul_right _ (by omega)
    rw [Nat.add_mul, Nat.one_mul] at hmul
    omega

/-- Claim C6: with `pitch ≥ width * 4`, a render call overwrites exactly
the first `width * 4` bytes of each of the `height` rows with the
little-endian bytes of the packed pixels, leaves the bytes between
`width * 4` and `pitch` of each row untouched, and leaves every byte at
or beyond `height * pitch` untouched. -/
theorem c6_framebuffer_effect (w h : Nat) (sprites : List Sprite)
    (packer : Nat → Nat → Nat → Nat) (pitch : Nat) (fb : Nat → Nat)
    (hpitch : 4 * w ≤ pitch) :
    (∀ y < h, ∀ k < 4 * w,
      renderIntoFB w h sprites packer pitch fb (y * pitch + k) =
        renderedAt w h sprites packer (k / 4) y / 256 ^ (k % 4) % 256) ∧
    (∀ y < h, ∀ k, 4 * w ≤ k → k < pitch →
      renderIntoFB w h sprites packer pitch fb (y * pitch + k) = fb (y * pitch + k)) ∧
    (∀ i, h * pitch ≤ i → renderIntoFB w h sprites packer pitch fb i = fb i) := by
  refine ⟨?_, ?_, ?_⟩
  · intro y hy k hk
    unfold renderIntoFB
    rw [foldl_storeRow_written pitch (fun yy => renderLine w h sprites packer yy)
      (List.range h) fb y (y * pitch + k) (List.mem_range.mpr hy) (List.nodup_range h)
      (by rw [renderLine_length]; omega)
      (fun y' _ hne => by rw [renderLine_length]; exact row_regions_disjoint hpitch hne (by omega))]
    have hsub : y * pitch + k - y * pitch = k := by omega
    rw [hsub, renderLine_getD (by omega)]
  · intro y hy k hk4 hkp
    unfold renderIntoFB
    apply foldl_storeRow_untouched
    intro y' hy'
    rw [renderLine_length]
    by_cases hne : y' = y
    · subst hne
      omega
    · exact row_regions_disjoint hpitch hne hkp
  · intro i hi
    unfold renderIntoFB
    apply foldl_storeRow_untouched
    intro y' hy'
    rw [renderLine_length]
    rw [List.mem_range] at hy'
    rintro ⟨h1, h2⟩
    have hmul : (y' + 1) * pitch ≤ h * pitch := Nat.mul_le_mul_right _ (by omega)
    rw [Nat.add_mul, Nat.one_mul] at hmul
    omega

/-- Witness for C6: a one-pixel frame with pitch 8; byte 0 is the low
byte of the packed pixel, byte 5 (the pitch gap) and byte 8 (past the
frame) stay untouched. -/
theorem c6_witness :
    renderIntoFB 1 1 [⟨⟨0, 0, 1, 1⟩, fun _ _ => SpritePixel.solid 1 2 3, 0⟩]
        rgbToARGB8888 8 (fun i => i + 40) 0 =
      renderedAt 1 1 [⟨⟨0, 0, 1, 1⟩, fun _ _ => SpritePixel.solid 1 2 3, 0⟩]
        rgbToARGB8888 0 0 / 256 ^ 0 % 256 ∧
    renderIntoFB 1 1 [⟨⟨0, 0, 1, 1⟩, fun _ _ => SpritePixel.solid 1 2 3, 0⟩]
        rgbToARGB8888 8 (fun i => i + 40) 5 = 45 ∧
    renderIntoFB 1 1 [⟨⟨0, 0, 1, 1⟩, fun _ _ => SpritePixel.solid 1 2 3, 0⟩]
        rgbToARGB8888 8 (fun i => i + 40) 9 = 49 := by
  have h := c6_framebuffer_effect 1 1 [⟨⟨0, 0, 1, 1⟩, fun _ _ => SpritePixel.solid 1 2 3, 0⟩]
    rgbToARGB8888 8 (fun i => i + 40) (by decide)
  exact ⟨h.1 0 (by decide) 0 (by decide), h.2.1 0 (by decide) 5 (by decide) (by decide),
    h.2.2 9 (by decide)⟩

/-- Claim C9: during a render call every stack member whose x-range
still covers the current column — exactly those on which `renderPixel`
can invoke `pixel_at` (stale members are detected and removed before any
lookup; every retry stack is a sublist of the stack built at the column)
— is read strictly inside its local bounds, and the framebuffer is
written only at byte addresses `y * pitch + 4 * x + j` with
`x < width`, `y < height`, `j < 4`. -/
theorem c9_safety (w h : Nat) (sprites : List Sprite)
    (packer : Nat → Nat → Nat → Nat) (y x : Nat) (hx : x < w) (hy : y < h) :
    (∀ s ∈ stackResolved w h sprites y x, (x : Int) ≤ s.position.getLastX →
      0 ≤ (x : Int) - s.position.x ∧ (x : Int) - s.position.x < (s.position.width : Int) ∧
      0 ≤ (y : Int) - s.position.y ∧ (y : Int) - s.position.y < (s.position.height : Int)) ∧
    (∀ (pitch : Nat) (fb : Nat → Nat) (i : Nat),
      (∀ y' < h, ∀ x' < w, ∀ j < 4, i ≠ y' * pitch + 4 * x' + j) →
      renderIntoFB w h sprites packer pitch fb i = fb i) := by
  constructor
  · intro s hs hlast
    have hprops := (stackResolved_props w h sprites y x).1 s hs
    have hc := (spriteOnRow_contains hx hy).mp ⟨hprops.2.1, hprops.2.2, hlast⟩
    unfold IntRect.contains IntRect.getLastX IntRect.getLastY at hc
    omega
  · intro pitch fb i hno
    unfold renderIntoFB
    apply foldl_storeRow_untouched
    intro y' hy'
    rw [renderLine_length]
    rw [List.mem_range] at hy'
    rintro ⟨h1, h2⟩
    exact hno y' hy' ((i - y' * pitch) / 4) (by omega) ((i - y' * pitch) % 4) (by omega)
      (by omega)

/-- Witness for C9 at a 2-by-1 frame: the single sprite on the stack at
column 0 is read in bounds, and byte 100 is untouched. -/
theorem c9_witness :
    (∀ s ∈ stackResolved 2 1 [⟨⟨0, 0, 2, 1⟩, fun _ _ => SpritePixel.solid 1 1 1, 0⟩] 0 0,
      (0 : Int) ≤ s.position.getLastX →
      0 ≤ (0 : Int) - s.position.x ∧ (0 : Int) - s.position.x < (s.position.width : Int) ∧
      0 ≤ (0 : Int) - s.position.y ∧ (0 : Int) - s.position.y < (s.position.height : Int)) ∧
    renderIntoFB 2 1 [⟨⟨0, 0, 2, 1⟩, fun _ _ => SpritePixel.solid 1 1 1, 0⟩]
      rgbToARGB8888 8 (fun i => i) 100 = 100 := by
  have h := c9_safety 2 1 [⟨⟨0, 0, 2, 1⟩, fun _ _ => SpritePixel.solid 1 1 1, 0⟩]
    rgbToARGB8888 0 0 (by decide) (by decide)
  refine ⟨fun s hs hl => h.1 s hs hl, h.2 8 (fun i => i) 100 ?_⟩
  decide

/-- Claim C3: a sprite whose position does not intersect the viewport
leaves the rendered framebuffer bytewise unchanged when appended to the
sprite sequence. -/
theorem c3_offscreen_sprite_no_effect (w h : Nat) (sprites : List Sprite) (s : Sprite)
    (packer : Nat → Nat → Nat → Nat) (pitch : Nat) (fb : Nat → Nat)
    (hout : s.position.intersects (viewport w h) = false) :
    renderIntoFB w h (sprites ++ [s]) packer pitch fb =
      renderIntoFB w h sprites packer pitch fb := by
  have hvr : visibleRect w h s = ⟨0, 0, 0, 0⟩ := by
    unfold visibleRect
    apply IntRect.getIntersection_of_not_intersects
    rw [IntRect.intersects_comm]
    exact hout
  have hbl : ∀ y x : Nat, lineBeginList w h (sprites ++ [s]) y x
      = lineBeginList w h sprites y x := by
    intro y x
    unfold lineBeginList
    rw [List.filter_append]
    have hdrop : [s].filter (spriteInBlock w h (y / 8)) = [] := by
      simp [spriteInBlock, hvr, IntRect.isEmpty]
    rw [hdrop, List.append_nil]
  have hline : ∀ y : Nat, renderLine w h (sprites ++ [s]) packer y
      = renderLine w h sprites packer y := by
    intro y
    unfold renderLine
    rw [funext (fun x => hbl y x)]
  unfold renderIntoFB
  rw [funext (fun y => hline y)]

/-- Witness for C3: the off-screen sprite at `(-9, -9)` changes nothing
on a 2-by-1 frame. -/
theorem c3_witness :
    renderIntoFB 2 1 ([⟨⟨0, 0, 2, 1⟩, fun _ _ => SpritePixel.solid 1 2 3, 0⟩] ++
        [⟨⟨-9, -9, 2, 2⟩, fun _ _ => SpritePixel.solid 9 9 9, 5⟩])
      rgbToARGB8888 8 (fun _ => 0) =
    renderIntoFB 2 1 [⟨⟨0, 0, 2, 1⟩, fun _ _ => SpritePixel.solid 1 2 3, 0⟩]
      rgbToARGB8888 8 (fun _ => 0) :=
  c3_offscreen_sprite_no_effect 2 1 _ _ rgbToARGB8888 8 (fun _ => 0) (by decide)

/-- Claim C7: the per-frame reset invariant is preserved: if every
begin-list is empty when `render` is called, every begin-list is empty
again after it returns (each row clears its own lists; in fact the
clearing is unconditional). -/
theorem c7_reset_invariant (w h : Nat) (sprites : List Sprite)
    (packer : Nat → Nat → Nat → Nat) (st : List (List (List Sprite)))
    (_hpre : ∀ line ∈ st, ∀ cell ∈ line, cell = ([] : List Sprite)) :
    ∀ line ∈ (renderState w h sprites packer st).2, ∀ cell ∈ line,
      cell = ([] : List Sprite) := by
  intro line hline cell hcell
  unfold renderState at hline
  dsimp only at hline
  rw [List.mem_map] at hline
  obtain ⟨line0, _, rfl⟩ := hline
  unfold clearLine at hcell
  rw [List.mem_map] at hcell
  obtain ⟨_, _, rfl⟩ := hcell
  rfl

/-- Witness for C7: the single begin-list of a 1-by-1 renderer is empty
after the call. -/
theorem c7_witness :
    ((renderState 1 1 [⟨⟨0, 0, 1, 1⟩, fun _ _ => SpritePixel.solid 1 1 1, 0⟩]
        rgbToARGB8888 [[[]]]).2.headD []).headD
      [⟨⟨0, 0, 1, 1⟩, fun _ _ => SpritePixel.solid 1 1 1, 0⟩] = ([] : List Sprite) := by
  apply c7_reset_invariant 1 1
    [⟨⟨0, 0, 1, 1⟩, fun _ _ => SpritePixel.solid 1 1 1, 0⟩] rgbToARGB8888 [[[]]] ?hpre
    ((renderState 1 1 [⟨⟨0, 0, 1, 1⟩, fun _ _ => SpritePixel.solid 1 1 1, 0⟩]
        rgbToARGB8888 [[[]]]).2.headD []) ?hline _ ?hcell
  case hpre =>
    intro line hline cell hcell
    simp only [List.mem_singleton] at hline
    subst hline
    simp only [List.mem_singleton] at hcell
    subst hcell
    rfl
  case hline => exact List.Mem.head _
  case hcell => exact List.Mem.head _

theorem insertAllActivated_nil_left (l : List Sprite) :
    insertAllActivated [] l = sortByLayer l := by
  unfold insertAllActivated
  show ((sortByLayer l).reverse).reverse = sortByLayer l
  exact List.reverse_reverse _

theorem insertAllActivated_nil_right (stack : List Sprite) :
    insertAllActivated stack [] = stack := by
  unfold insertAllActivated
  show (mergeStacksRev stack.reverse []).reverse = stack
  rw [mergeStacksRev_nil_right, List.reverse_reverse]

theorem sortByLayer_pair {s0 s1 : Sprite} (h : s0.layer ≤ s1.layer) :
    sortByLayer [s0, s1] = [s0, s1] := by
  show insertSorted s0 (insertSorted s1 []) = [s0, s1]
  have h1 : insertSorted s1 [] = [s1] := rfl
  rw [h1]
  show (if s0.layer ≤ s1.layer then s0 :: s1 :: [] else s1 :: insertSorted s0 []) = [s0, s1]
  rw [if_pos h]

theorem filter_pair {α} (p : α → Bool) (a b : α) (hab : p a = p b) :
    [a, b].filter p = if p a = true then [a, b] else [] := by
  rw [List.filter_cons, List.filter_cons, List.filter_nil, ← hab]
  by_cases hpa : p a = true
  · simp [hpa]
  · simp [hpa]

theorem IntRect.nonempty_of_contains {r : IntRect} {p q : Int}
    (h : r.contains p q) : r.isEmpty = false := by
  rw [IntRect.isEmpty_false_iff]
  unfold IntRect.contains IntRect.getLastX IntRect.getLastY at h
  omega

theorem render_pair_same_position (w h : Nat) (s0 s1 : Sprite)
    (packer : Nat → Nat → Nat → Nat) (x y : Nat)
    (hpos : s0.position = s1.position)
    (hlay : s0.layer ≤ s1.layer)
    (hvis : (visibleRect w h s1).contains (x : Int) (y : Int))
    (hsolid : ∀ u v : Int, (s1.pixelGetter u v).isTransparent = false) :
    renderedAt w h [s0, s1] packer x y =
      packer (spritePixelAt s1 (x : Int) (y : Int)).r
        (spritePixelAt s1 (x : Int) (y : Int)).g
        (spritePixelAt s1 (x : Int) (y : Int)).b := by
  obtain ⟨hvx, hvlx, hvy, hvly⟩ := hvis
  have hne : (visibleRect w h s1).isEmpty = false :=
    IntRect.nonempty_of_contains ⟨hvx, hvlx, hvy, hvly⟩
  have hfacts := visibleRect_facts hne
  have hrow1 : spriteOnRow w h y s1 = true := spriteOnRow_iff.mpr ⟨hne, hvy, hvly⟩
  have hlast : (visibleRect w h s1).getLastX ≤ s1.position.getLastX :=
    hfacts.2.2.2.2.2.1
  have hstale : ∀ c : Nat, (c : Int) ≤ (visibleRect w h s1).getLastX →
      staleAt (c : Int) s1 = false := by
    intro c hc
    simp only [staleAt, decide_eq_false_iff_not, not_lt]
    omega
  have hbl : ∀ c : Nat, lineBeginList w h [s0, s1] y c
      = [s0, s1] ∨ lineBeginList w h [s0, s1] y c = [] := by
    intro c
    unfold lineBeginList
    rw [filter_pair (spriteInBlock w h (y / 8)) s0 s1
      (by unfold spriteInBlock visibleRect; rw [hpos])]
    by_cases hPP : spriteInBlock w h (y / 8) s0 = true
    · rw [if_pos hPP]
      rw [filter_pair (beginCellCond w h y c) s0 s1 (by unfold beginCellCond; rw [hpos])]
      by_cases hQQ : beginCellCond w h y c s0 = true
      · rw [if_pos hQQ]
        exact Or.inl rfl
      · rw [if_neg hQQ]
        exact Or.inr rfl
    · rw [if_neg hPP]
      exact Or.inr (by simp)
  have hblc : ∀ c : Nat, lineBeginList w h [s0, s1] y c
      = if (visibleRect w h s1).x = (c : Int) then [s0, s1] else [] := by
    intro c
    by_cases hcc : (visibleRect w h s1).x = (c : Int)
    · rw [if_pos hcc]
      rcases hbl c with hh | hh
      · exact hh
      · exfalso
        have h1 : s1 ∈ lineBeginList w h [s0, s1] y c :=
          mem_lineBeginList.mpr ⟨List.Mem.tail _ (List.Mem.head _), hrow1, hcc⟩
        rw [hh] at h1
        simp at h1
    · rw [if_neg hcc]
      rcases hbl c with hh | hh
      · exfalso
        have h1 : s1 ∈ lineBeginList w h [s0, s1] y c := by
          rw [hh]
          exact List.Mem.tail _ (List.Mem.head _)
        exact hcc (mem_lineBeginList.mp h1).2.2
      · exact hh
  have hx0 : 0 ≤ (visibleRect w h s1).x := hfacts.1
  have hx0i : (((visibleRect w h s1).x.toNat : Nat) : Int) = (visibleRect w h s1).x :=
    Int.toNat_of_nonneg hx0
  have hxge : (visibleRect w h s1).x.toNat ≤ x := by omega
  have hpre : ∀ c : Nat, c ≤ (visibleRect w h s1).x.toNat →
      lineStackBL (lineBeginList w h [s0, s1] y) (y : Int) c = [] := by
    intro c
    induction c with
    | zero => intro _; rfl
    | succ c ih =>
      intro hcle
      have hstep : lineStackBL (lineBeginList w h [s0, s1] y) (y : Int) (c + 1)
          = (renderPixel (insertAllActivated
              (lineStackBL (lineBeginList w h [s0, s1] y) (y : Int) c)
              (lineBeginList w h [s0, s1] y c)) (c : Int) (y : Int)).2 := rfl
      rw [hstep, ih (by omega)]
      have hblc' : lineBeginList w h [s0, s1] y c = [] := by
        rw [hblc c, if_neg (by omega)]
      rw [hblc', insertAllActivated_nil_right]
      rfl
  have hmain : ∀ c : Nat, (visibleRect w h s1).x.toNat < c →
      (c : Int) ≤ (visibleRect w h s1).getLastX + 1 →
      lineStackBL (lineBeginList w h [s0, s1] y) (y : Int) c = [s0, s1] := by
    intro c
    induction c with
    | zero => intro h1 _; omega
    | succ c ih =>
      intro h1 h2
      have hstep : lineStackBL (lineBeginList w h [s0, s1] y) (y : Int) (c + 1)
          = (renderPixel (insertAllActivated
              (lineStackBL (lineBeginList w h [s0, s1] y) (y : Int) c)
              (lineBeginList w h [s0, s1] y c)) (c : Int) (y : Int)).2 := rfl
      have hcle : (c : Int) ≤ (visibleRect w h s1).getLastX := by
        push_cast at h2
        omega
      have hrp : renderPixel [s0, s1] (c : Int) (y : Int)
          = (spritePixelAt s1 (c : Int) (y : Int), [s0, s1]) :=
        renderPixel_concat_top [s0] s1 (c : Int) (y : Int) (hstale c hcle) (hsolid _ _)
      rcases Nat.lt_or_ge (visibleRect w h s1).x.toNat c with hgt | hle
      · have hs := ih hgt (by push_cast at h2 ⊢; omega)
        rw [hstep, hs]
        have hblc' : lineBeginList w h [s0, s1] y c = [] := by
          rw [hblc c, if_neg (by omega)]
        rw [hblc', insertAllActivated_nil_right, hrp]
      · have hx0c : (visibleRect w h s1).x.toNat = c := by omega
        rw [hstep, hpre c (by omega)]
        have hblc' : lineBeginList w h [s0, s1] y c = [s0, s1] := by
          rw [hblc c, if_pos (by omega)]
        rw [hblc', insertAllActivated_nil_left, sortByLayer_pair hlay, hrp]
  have hTx : insertAllActivated (lineStackBL (lineBeginList w h [s0, s1] y) (y : Int) x)
      (lineBeginList w h [s0, s1] y x) = [s0, s1] := by
    rcases Nat.lt_or_ge (visibleRect w h s1).x.toNat x with hgt | hle
    · rw [hmain x hgt (by omega)]
      have hblc' : lineBeginList w h [s0, s1] y x = [] := by
        rw [hblc x, if_neg (by omega)]
      rw [hblc']
      exact insertAllActivated_nil_right _
    · have hxx : x = (visibleRect w h s1).x.toNat := by omega
      rw [hpre x (by omega)]
      have hblc' : lineBeginList w h [s0, s1] y x = [s0, s1] := by
        rw [hblc x, if_pos (by omega)]
      rw [hblc', insertAllActivated_nil_left]
      exact sortByLayer_pair hlay
  have hrpx : renderPixel [s0, s1] (x : Int) (y : Int)
      = (spritePixelAt s1 (x : Int) (y : Int), [s0, s1]) :=
    renderPixel_concat_top [s0] s1 (x : Int) (y : Int) (hstale x hvlx) (hsolid _ _)
  have hs2 : (spritePixelAt s1 (x : Int) (y : Int)).isTransparent = false := hsolid _ _
  unfold renderedAt linePixelBL stackResolvedBL
  rw [hTx, hrpx]
  simp [hs2]

/-- Claim C4 as stated is refuted in its general ordering clause: two
fully opaque equal-layer sprites activated at different columns.  The
earlier input sprite spans columns 0..2, the later spans 2..3; at their
shared column 2 the merge of `insertAllActivatedSprites` places the
newly activated later sprite below the already active earlier one (its
`layer > layer` test is strict), so the EARLIER sprite's color is
rendered, not the later one's as "later = topmost" requires. -/
theorem c4_counterexample :
    renderedAt 4 1
      [⟨⟨0, 0, 3, 1⟩, fun _ _ => SpritePixel.solid 10 0 0, 5⟩,
       ⟨⟨2, 0, 2, 1⟩, fun _ _ => SpritePixel.solid 0 20 0, 5⟩] rgbToARGB8888 2 0
      = rgbToARGB8888 10 0 0 ∧
    rgbToARGB8888 10 0 0 ≠ rgbToARGB8888 0 20 0 := by
  constructor
  · decide
  · decide

/-- Claim C4, amended: for two fully opaque sprites at identical
positions with identical layer values and distinct colors, every visible
pixel renders as the color of the sprite appearing later in the input
(equal-layer sprites activated at the SAME column stack in input order,
later on top, through the stable sort of the begin-list); the general
"later in input = topmost" ordering does not hold across different
activation columns, where the earlier-activated equal-layer sprite stays
on top (see the counterexample). -/
theorem c4_equal_layer_same_position (w h : Nat) (pos : IntRect) (layer : Nat)
    (c0r c0g c0b c1r c1g c1b : Nat) (packer : Nat → Nat → Nat → Nat) (x y : Nat)
    (hvis : ((viewport w h).getIntersection pos).contains (x : Int) (y : Int)) :
    renderedAt w h
      [⟨pos, fun _ _ => SpritePixel.solid c0r c0g c0b, layer⟩,
       ⟨pos, fun _ _ => SpritePixel.solid c1r c1g c1b, layer⟩] packer x y
      = packer c1r c1g c1b :=
  render_pair_same_position w h
    ⟨pos, fun _ _ => SpritePixel.solid c0r c0g c0b, layer⟩
    ⟨pos, fun _ _ => SpritePixel.solid c1r c1g c1b, layer⟩ packer x y rfl (le_refl _)
    hvis (fun _ _ => rfl)

/-- Witness for the amended C4: two overlapping equal-layer sprites at
`(1, 0, 2, 1)` on a 4-by-1 frame; the later one's color shows at
`(2, 0)`. -/
theorem c4_witness :
    renderedAt 4 1
      [⟨⟨1, 0, 2, 1⟩, fun _ _ => SpritePixel.solid 10 0 0, 5⟩,
       ⟨⟨1, 0, 2, 1⟩, fun _ _ => SpritePixel.solid 0 20 0, 5⟩] rgbToARGB8888 2 0
      = rgbToARGB8888 0 20 0 :=
  c4_equal_layer_same_position 4 1 ⟨1, 0, 2, 1⟩ 5 10 0 0 0 20 0 rgbToARGB8888 2 0
    (by decide)
